import Mathlib

/-!
# Verification of the `MultiBlock` composite-container core

A shallow embedding of `pyvista/core/composite.py` (`class MultiBlock`): an
ordered sequence of slots, each holding an optional block name and an optional
payload (a leaf dataset or a nested `MultiBlock`), together with the
`_refs` retention table keyed by the payload's `memory_address`.

Modelling conventions:
* Python object identity (`is`, `memory_address`) is modelled by an `addr : Nat`
  field carried by every dataset and every `MultiBlock`.
* Spatial coordinates are modelled over `Int` (bounds aggregation only compares
  and takes min/max, so the embedding is exact on integer-valued inputs).
* A numpy array is modelled by the only two features the composite code
  inspects: its number of dimensions (`ndim`) and whether its dtype is
  complex-valued.
* Fallible operations return `Except Err _`; the error is produced at the same
  program point where the Python code raises, so an `.error` result models an
  exception thrown before any later mutation of the source object.
* Leaf datasets (`pyvista.DataSet`) are external collaborators whose class is
  not part of the translated file; the few capabilities the composite code
  consumes from them are modelled from the spec where marked.
-/

/-- Error taxonomy of the spec (§7), mapped onto the Python exception types
raised by `composite.py`: `outOfRange` is `IndexError`, `notFound` is
`KeyError`, `typeMismatch` is the `TypeError`/`ValueError` raised for
unstorable values and self-containment, `inconsistentField` is the
`ValueError` raised by the active-scalars consistency checks. -/
inductive Err where
  | outOfRange
  | notFound
  | typeMismatch
  | inconsistentField
deriving DecidableEq, Repr

/-- Field association of a data array (point-indexed, cell-indexed, or none),
mirroring `FieldAssociation.POINT/CELL/NONE`. -/
inductive Assoc where
  | point
  | cell
  | none
deriving DecidableEq, Repr

/-- The `preference` argument of `set_active_scalars` (`'point'` or `'cell'`
literals in the source). `parse_field_choice` maps it into `Assoc`. -/
inductive Pref where
  | point
  | cell
deriving DecidableEq, Repr

/-- Model of `parse_field_choice`: the preference literal as a field association. -/
def Pref.toAssoc : Pref → Assoc
  | .point => .point
  | .cell => .cell

/-- The features of a stored numpy array that the composite code inspects:
`scalars.ndim` and whether `scalars.dtype` is a complex dtype
(`np.issubdtype(dtype, np.complexfloating)`). -/
structure ArrInfo where
  ndim : Nat
  complexDtype : Bool
deriving DecidableEq, Repr

/-- Model of `pyvista_ndarray([])`: the empty float array (one dimension, real dtype). -/
def emptyArr : ArrInfo := ⟨1, false⟩

/-- A six-tuple of spatial bounds `(x_min, x_max, y_min, y_max, z_min, z_max)`,
coordinates modelled over `Int`. -/
structure B6 where
  xmin : Int
  xmax : Int
  ymin : Int
  ymax : Int
  zmin : Int
  zmax : Int
deriving DecidableEq, Repr

/-- Modelled from the spec (§6): a leaf dataset, an external collaborator of
the container.  The composite code consumes exactly this capability set from
it: an identity handle (`memory_address`), `n_points`, `bounds`, and the
point-indexed and cell-indexed field arrays by name. -/
structure Dataset where
  addr : Nat
  n_points : Nat
  bounds : B6
  point_data : List (String × ArrInfo)
  cell_data : List (String × ArrInfo)
deriving DecidableEq, Repr

/-- A `MultiBlock`: `addr` models the Python object identity, `slots` is the
ordered sequence of `(block name, block)` pairs held by the underlying
`vtkMultiBlockDataSet` (a block is `None`, a leaf `DataSet`, or a nested
`MultiBlock`), and `refs` is the key set of the `_refs` retention dict
(strong references keyed by `memory_address`). -/
inductive MultiBlock where
  | mk (addr : Nat) (slots : List (Option String × Option (Dataset ⊕ MultiBlock)))
      (refs : List Nat) : MultiBlock

/-- A block payload: a leaf dataset or a nested multi-block. -/
abbrev Payload := Dataset ⊕ MultiBlock

/-- One slot: optional sticky name, optional payload. -/
abbrev Slot := Option String × Option Payload

def MultiBlock.addr : MultiBlock → Nat
  | .mk a _ _ => a

def MultiBlock.slots : MultiBlock → List Slot
  | .mk _ s _ => s

def MultiBlock.refs : MultiBlock → List Nat
  | .mk _ _ r => r

/-- Model of `n_blocks` / `__len__`: the number of slots. -/
def MultiBlock.n_blocks (m : MultiBlock) : Nat := m.slots.length

/-- Model of `memory_address` of a payload (both datasets and multi-blocks expose it). -/
def Payload.addr : Payload → Nat
  | .inl d => d.addr
  | .inr m => m.addr

/-- The name stored at position `i` (`None` when the metadata has no name). -/
def MultiBlock.nameAt (m : MultiBlock) (i : Nat) : Option String :=
  m.slots[i]?.bind (·.1)

/-- The payload stored at position `i` (`GetBlock(i)`). -/
def MultiBlock.payloadAt (m : MultiBlock) (i : Nat) : Option Payload :=
  m.slots[i]?.bind (·.2)

/-- Model of `keys()`: the ordered list of block names. -/
def MultiBlock.keys (m : MultiBlock) : List (Option String) :=
  m.slots.map (·.1)

/-- Python's `range(n)[index]`: resolves a possibly negative integer index,
failing (with `IndexError`) when `index < -n` or `index >= n`.  This is the
index-resolution idiom used throughout `composite.py`. -/
def resolveIndex (n : Nat) (index : Int) : Option Nat :=
  if 0 ≤ index ∧ index < (n : Int) then some index.toNat
  else if -(n : Int) ≤ index ∧ index < 0 then some (index + n).toNat
  else none

/-- The sticky default name `f'Block-{i:02}'` (zero-padded to two digits). -/
def defaultName (i : Nat) : String :=
  "Block-" ++ (if i < 10 then "0" ++ toString i else toString i)

/-- Store a payload at position `i` (the `SetBlock(i, data)` call), leaving the
name untouched. -/
def setPayloadAt (slots : List Slot) (i : Nat) (d : Option Payload) : List Slot :=
  match slots[i]? with
  | some (nm, _) => slots.set i (nm, d)
  | none => slots

/-- Write the block name at position `i` (the `GetMetaData(i).Set(NAME, name)`
call), leaving the payload untouched. -/
def setNameAt (slots : List Slot) (i : Nat) (nm : String) : List Slot :=
  match slots[i]? with
  | some (_, d) => slots.set i (some nm, d)
  | none => slots

/-- Model of `self._refs[addr] = data`: dict insertion keyed by `memory_address`
(inserting an already present key leaves the key set unchanged). -/
def insertRef (refs : List Nat) (a : Nat) : List Nat :=
  if a ∈ refs then refs else refs ++ [a]

/-- Model of `self._refs.pop(addr, None)`: dict key removal. -/
def removeRef (refs : List Nat) (a : Nat) : List Nat :=
  refs.erase a

/-- Model of `get_index_by_name`: linear scan returning the first slot whose name
equals `s` (the `Option Nat` is `none` where Python raises `KeyError`). -/
def MultiBlock.get_index_by_name (m : MultiBlock) (s : String) : Option Nat :=
  scan m.slots 0
where
  /-- Model of `for i in range(n_blocks): if get_block_name(i) == name: return i`. -/
  scan : List Slot → Nat → Option Nat
  | [], _ => none
  | slot :: rest, i => if slot.1 = some s then some i else scan rest (i + 1)

/-- Model of `get_block_name(index)`: resolves the index via `range(n_blocks)[index]`
(raising `IndexError` out of range) and returns the stored name. -/
def MultiBlock.get_block_name (m : MultiBlock) (index : Int) :
    Except Err (Option String) :=
  match resolveIndex m.n_blocks index with
  | some i => .ok (m.nameAt i)
  | none => .error .outOfRange

/-- Model of `set_block_name(index, name)`: a no-op when `name is None`; otherwise
resolves the index and writes the name. -/
def MultiBlock.set_block_name (m : MultiBlock) (index : Int) (name : Option String) :
    Except Err MultiBlock :=
  match name with
  | none => .ok m
  | some s =>
    match resolveIndex m.n_blocks index with
    | some i => .ok (.mk m.addr (setNameAt m.slots i s) m.refs)
    | none => .error .outOfRange

/-- The single-value branch of `__setitem__` (`composite.py:714-735`), shared
by integer indexing (`name = None`) and name-keyed overwrite (`name = some s`):
resolve `i` via `range(n_blocks)[i]`; drop the retained reference of an
existing payload; `SetBlock(i, data)`; retain the new payload; then set the
name, substituting the default `f'Block-{i:02}'` when `name is None`.
(`wrap` is the identity on the dataset/multi-block/None payloads modelled
here, and the `pyvista_ndarray` rejection cannot fire on them.) -/
def MultiBlock.setResolved (m : MultiBlock) (i : Nat) (data : Option Payload)
    (name : Option String) : MultiBlock :=
  let refs1 :=
    match m.payloadAt i with
    | some p => removeRef m.refs p.addr   -- `_remove_ref(i)` on overwrite
    | none => m.refs
  let refs2 :=
    match data with
    | some p => insertRef refs1 p.addr    -- `self._refs[data.memory_address] = data`
    | none => refs1
  .mk m.addr (setNameAt (setPayloadAt m.slots i data) i (name.getD (defaultName i))) refs2

def MultiBlock.setitem_int (m : MultiBlock) (index : Int) (data : Option Payload)
    (name : Option String) : Except Err MultiBlock :=
  match resolveIndex m.n_blocks index with
  | none => .error .outOfRange
  | some i => .ok (m.setResolved i data name)

/-- Model of `self.n_blocks += 1` (the `n_blocks` property setter backed by
`SetNumberOfBlocks`): grows the store by one slot holding no payload and no
name. -/
def MultiBlock.growOne (m : MultiBlock) : MultiBlock :=
  .mk m.addr (m.slots ++ [(none, none)]) m.refs

/-- Model of `append(dataset, name)`: rejects direct self-containment
(`dataset is self`, modelled by identity of `memory_address`) before touching
any state, then grows the store, assigns at the new last index (which applies
the default name), and finally sets the explicit name (no overwrite when the
name is `None`). -/
def MultiBlock.append (m : MultiBlock) (dataset : Option Payload)
    (name : Option String) : Except Err MultiBlock :=
  match dataset with
  | some (.inr sub) =>
    if sub.addr = m.addr then .error .typeMismatch
    else appendBody m dataset name
  | _ => appendBody m dataset name
where
  /-- The body of `append` after the self-check. -/
  appendBody (m : MultiBlock) (dataset : Option Payload) (name : Option String) :
      Except Err MultiBlock := do
    let index := m.n_blocks
    let m1 := m.growOne
    let m2 ← m1.setitem_int (index : Int) dataset Option.none
    m2.set_block_name (index : Int) name

/-- The name-keyed branch of `__setitem__` (`composite.py:694-700`): overwrite
the first slot carrying the name, or append a fresh named block when the name
is absent. -/
def MultiBlock.setitem_str (m : MultiBlock) (s : String) (data : Option Payload) :
    Except Err MultiBlock :=
  match m.get_index_by_name s with
  | some i => m.setitem_int (i : Int) data (some s)
  | none => m.append data (some s)

/-- The integer branch of `__delitem__`: `_remove_ref(index)` (which resolves
the index through `__getitem__`, raising `IndexError` out of range, and pops
the retained reference), then `RemoveBlock(index)`.  The call sites modelled
here pass non-negative indices, for which `RemoveBlock` removes the resolved
slot. -/
def MultiBlock.delitem (m : MultiBlock) (index : Int) : Except Err MultiBlock :=
  match resolveIndex m.n_blocks index with
  | none => .error .outOfRange
  | some i =>
    let refs1 :=
      match m.payloadAt i with
      | some p => removeRef m.refs p.addr
      | none => m.refs
    .ok (.mk m.addr (m.slots.eraseIdx i) refs1)

/-- One step of the shift loop of `insert`:
`self[j + 1] = self[j]; self.set_block_name(j + 1, self.get_block_name(j))`
(the read `self[j]` is `__getitem__` at an index that is in range throughout
the loop). -/
def MultiBlock.shiftStep (m : MultiBlock) (j : Nat) : Except Err MultiBlock := do
  let m1 ← m.setitem_int ((j : Int) + 1) (m.payloadAt j) Option.none
  m1.set_block_name ((j : Int) + 1) (m.nameAt j)

/-- The shift loop `for i in reversed(range(lo, lo + cnt))` of `insert`,
running `shiftStep` for `j = lo + cnt - 1, ..., lo`. -/
def MultiBlock.shiftLoop (m : MultiBlock) (lo : Nat) : Nat → Except Err MultiBlock
  | 0 => .ok m
  | c + 1 => do
    let m1 ← m.shiftStep (lo + c)
    m1.shiftLoop lo c

/-- Model of `insert(index, dataset, name)`: resolve the index via
`range(n_blocks)[index]` (this is the first statement, so an out-of-range
index raises before any mutation), grow the store by one, shift the
`(payload, name)` pairs from `index` rightwards, then assign at `index`. -/
def MultiBlock.insert (m : MultiBlock) (index : Int) (dataset : Option Payload)
    (name : Option String) : Except Err MultiBlock := do
  match resolveIndex m.n_blocks index with
  | none => .error .outOfRange
  | some i => do
    let m1 := m.growOne
    -- for i in reversed(range(index, self.n_blocks - 1))
    let m2 ← m1.shiftLoop i (m1.n_blocks - 1 - i)
    let m3 ← m2.setitem_int (i : Int) dataset Option.none
    m3.set_block_name (i : Int) name

/-- Model of `replace(index, dataset)`: read the current name, assign the payload
through `__setitem__` (which applies the default name), then write the saved
name back (`set_block_name` being a no-op when the saved name was `None`). -/
def MultiBlock.replace (m : MultiBlock) (index : Int) (dataset : Option Payload) :
    Except Err MultiBlock := do
  let name ← m.get_block_name index
  let m1 ← m.setitem_int index dataset Option.none
  m1.set_block_name index name

/-- One iteration of the slice-assignment loop of `__setitem__`
(`composite.py:703-712`), at loop counter `k` (the `enumerate` index):
`zip_longest` pads the shorter side with `None`, so the position is
`index_iter[k]` when present and the payload test `d is None` holds both for
an exhausted payload sequence and for a genuine `None` element.  `index_iter`
is captured once, before any mutation. -/
def MultiBlock.sliceStep (indexIter : List Nat) (data : List (Option Payload))
    (k : Nat) (m : MultiBlock) : Except Err MultiBlock :=
  match indexIter[k]? with
  | Option.none =>
    -- `self.insert(index_iter[-1] + 1 + (i - len(index_iter)), d)`
    -- (`index_iter[-1]` itself raises IndexError when the slice is empty)
    match indexIter.getLast? with
    | Option.none => .error .outOfRange
    | some last =>
      m.insert ((last : Int) + 1 + (k : Int) - (indexIter.length : Int))
        (data[k]?.bind id) Option.none
  | some idx =>
    if (data[k]?.bind id).isNone then
      -- `del self[index_iter[-1] + 1]  # delete next entry`
      match indexIter.getLast? with
      | Option.none => .error .outOfRange
      | some last => m.delitem ((last : Int) + 1)
    else
      m.setitem_int (idx : Int) (data[k]?.bind id) Option.none

/-- The slice-assignment loop, iterating `sliceStep` over the `enumerate`
counters in order (an exception aborts the loop, leaving the mutations already
performed in place). -/
def MultiBlock.sliceLoop (indexIter : List Nat) (data : List (Option Payload)) :
    List Nat → MultiBlock → Except Err MultiBlock
  | [], m => .ok m
  | k :: ks, m => do
    let m1 ← m.sliceStep indexIter data k
    m1.sliceLoop indexIter data ks

/-- The slice branch of `__setitem__` for the full slice `[:]`
(`index_iter = range(self.n_blocks)[:] = range(n_blocks)`): the loop runs for
`max(len(index_iter), len(data))` iterations, the length of the
`zip_longest`. -/
def MultiBlock.setitem_sliceAll (m : MultiBlock) (data : List (Option Payload)) :
    Except Err MultiBlock :=
  let indexIter := List.range m.n_blocks
  m.sliceLoop indexIter data (List.range (max indexIter.length data.length))

/-- Model of `np.minimum.reduce` step on two bounds six-tuples: componentwise `min`. -/
def bmin (a b : B6) : B6 :=
  ⟨min a.xmin b.xmin, min a.xmax b.xmax, min a.ymin b.ymin,
   min a.ymax b.ymax, min a.zmin b.zmin, min a.zmax b.zmax⟩

/-- Model of `np.maximum.reduce` step on two bounds six-tuples: componentwise `max`. -/
def bmax (a b : B6) : B6 :=
  ⟨max a.xmin b.xmin, max a.xmax b.xmax, max a.ymin b.ymin,
   max a.ymax b.ymax, max a.zmin b.zmin, max a.zmax b.zmax⟩

/-- The degenerate zero-extent bounds at the origin. -/
def zeroB6 : B6 := ⟨0, 0, 0, 0, 0, 0⟩

/-- The `bounds` property: `all_bounds = [block.bounds for block in self if block]`
keeps the bounds of every truthy block (a `None` block is falsy; a nested
`MultiBlock` is truthy iff it has at least one slot, via `__len__`; a leaf
dataset is truthy iff it is non-empty — the leaf's truthiness and `bounds`
capability are modelled from the spec, §4.4/§6, the leaf class being an
external collaborator).  An empty list yields the degenerate origin bounds;
otherwise the minima are entries `0, 2, 4` of `np.minimum.reduce(all_bounds)`
and the maxima entries `1, 3, 5` of `np.maximum.reduce(all_bounds)`,
re-interleaved into the result. -/
def MultiBlock.bounds : MultiBlock → B6
  | .mk _ slots _ =>
    match collectBounds slots with
    | [] => zeroB6
    | b :: rest =>
      let mn := rest.foldl bmin b
      let mx := rest.foldl bmax b
      ⟨mn.xmin, mx.xmax, mn.ymin, mx.ymax, mn.zmin, mx.zmax⟩
where
  /-- Model of `[block.bounds for block in self if block]`. -/
  collectBounds : List Slot → List B6
  | [] => []
  | (_, Option.none) :: rest => collectBounds rest
  | (_, some (.inl d)) :: rest =>
    if 0 < d.n_points then d.bounds :: collectBounds rest else collectBounds rest
  | (_, some (.inr sub)) :: rest =>
    if 0 < sub.n_blocks then sub.bounds :: collectBounds rest else collectBounds rest

/-- The bounds aggregation as the claim words it: element-wise minimum of the
lower bounds and maximum of the upper bounds, per axis, over all non-null,
non-empty blocks, a nested container contributing its own aggregated bounds as
if it were a leaf; no contributing blocks yields the degenerate origin
bounds. -/
def MultiBlock.specBounds : MultiBlock → B6
  | .mk _ slots _ =>
    match specContrib slots with
    | [] => zeroB6
    | b :: rest =>
      ⟨(rest.map (·.xmin)).foldl min b.xmin, (rest.map (·.xmax)).foldl max b.xmax,
       (rest.map (·.ymin)).foldl min b.ymin, (rest.map (·.ymax)).foldl max b.ymax,
       (rest.map (·.zmin)).foldl min b.zmin, (rest.map (·.zmax)).foldl max b.zmax⟩
where
  /-- The bounds of the non-null, non-empty blocks, in order. -/
  specContrib : List Slot → List B6
  | [] => []
  | (_, Option.none) :: rest => specContrib rest
  | (_, some (.inl d)) :: rest =>
    if 0 < d.n_points then d.bounds :: specContrib rest else specContrib rest
  | (_, some (.inr sub)) :: rest =>
    if 0 < sub.n_blocks then sub.specBounds :: specContrib rest else specContrib rest

/-- The marking predicate of `clean`, evaluated on a slot whose nested
container has already been cleaned in place: a slot is marked when its block
is `None`, a leaf with fewer than one point (only when `empty` is set), or a
nested container that cleaned down to zero blocks. -/
def markP (empty : Bool) : Slot → Bool
  | (_, Option.none) => true
  | (_, some (.inl d)) => empty && d.n_points < 1
  | (_, some (.inr sub)) => sub.n_blocks < 1

/-- The removal loop of `clean`: `del self[int(null_blocks[k])]` followed by
`null_blocks -= 1` (every pending index is decremented after each deletion).
The accumulated decrements are carried as the count `k` of deletions already
performed, so the pending original index `i` stands at `i - k` when its turn
comes (in `Nat`, decrementing once per deletion and subtracting the deletion
count coincide).  Each deletion pops the retained reference of the removed
slot's payload (`_remove_ref`) and erases the slot. -/
def deleteLoop (k : Nat) : List Nat → List Slot → List Nat → List Slot × List Nat
  | [], slots, refs => (slots, refs)
  | i :: rest, slots, refs =>
    let refs1 :=
      match slots[i - k]?.bind (·.2) with
      | some p => removeRef refs p.addr
      | Option.none => refs
    deleteLoop (k + 1) rest (slots.eraseIdx (i - k)) refs1

/-- The ascending index list collected by the marking pass of `clean`
(`for i in range(self.n_blocks): ... null_blocks.append(i)`), walking the
slots in order with the running loop index. -/
def collectMarks (empty : Bool) (slots : List Slot) : List Nat :=
  go slots 0
where
  /-- The marking loop from position `i` onwards. -/
  go : List Slot → Nat → List Nat
  | [], _ => []
  | s :: rest, i => if markP empty s then i :: go rest (i + 1) else go rest (i + 1)

/-- Model of `clean(empty)` (`composite.py:881-914`): one pass over the original
indices cleans every nested container in place (always with the default
`empty=True`, regardless of the outer argument) and records the indices of
null slots, empty leaves (when `empty` is set) and nested containers that
became empty; a second pass deletes the recorded indices, decrementing the
pending ones after each deletion. -/
def MultiBlock.clean (empty : Bool) : MultiBlock → MultiBlock
  | .mk a slots refs =>
    let slots1 := cleanPass slots
    let res := deleteLoop 0 (collectMarks empty slots1) slots1 refs
    .mk a res.1 res.2
where
  /-- The in-place recursive cleaning of nested containers done by the
  marking pass (`data.clean()`, with the default `empty=True`). -/
  cleanPass : List Slot → List Slot
  | [] => []
  | (nm, some (.inr sub)) :: rest => (nm, some (.inr (clean true sub))) :: cleanPass rest
  | s :: rest => s :: cleanPass rest

/-- First array of the given name in a point/cell attribute mapping. -/
def findField (fields : List (String × ArrInfo)) (s : String) : Option ArrInfo :=
  (fields.find? (·.1 = s)).map (·.2)

/-- Modelled from the spec: the leaf capability `activate_field(name,
axis_preference)` of §6 together with §4.4 step 1 — `DataSet.set_active_scalars`
is not part of the translated file.  Activation attempts the named field on
both the point-indexed and cell-indexed spaces, the preference breaking the
tie when both have it; a missing field fails with NotFound (`KeyError`); a
`None` name is pure deactivation, returning no array.  (Our datasets carry no
mutable activation state, so activation is observationally the returned
pair.) -/
def Dataset.set_active_scalars (d : Dataset) (name : Option String) (preference : Pref) :
    Except Err (Assoc × Option ArrInfo) :=
  match name with
  | Option.none => .ok (Assoc.none, Option.none)
  | some s =>
    match findField d.point_data s, findField d.cell_data s with
    | some p, some c =>
      .ok (if preference = .point then (Assoc.point, some p) else (Assoc.cell, some c))
    | some p, Option.none => .ok (Assoc.point, some p)
    | Option.none, some c => .ok (Assoc.cell, some c)
    | Option.none, Option.none => .error .notFound

/-- Model of `set.add` over a list: fold keeping the first occurrence of each value
(models the `dims` / `dtypes` sets of the consistency check). -/
def distinctList {α : Type} [DecidableEq α] (l : List α) : List α :=
  l.foldl (fun acc x => if x ∈ acc then acc else acc ++ [x]) []

/-- Model of `MultiBlock.set_active_scalars(name, preference, allow_missing)`
(`composite.py:1089-1188`).  The main loop walks the blocks in order: a `None`
block is skipped; a nested `MultiBlock` is resolved recursively (its errors
propagate — the `try` only guards the leaf call); a leaf is activated, a
`KeyError` being re-raised unless `allow_missing` is set, in which case the
block is skipped with the none association and an empty array.  Each non-`None`
block overwrites the running `scalars` variable; blocks whose association is
not none are collected into `data_assoc` with their array.  Afterwards: a
`None` name returns the none association; an empty `data_assoc` raises
`KeyError`; the winning association is `data_assoc[0][0]` unless some entry
carries the preference; the entries carrying the winning association must
agree on `ndim` and must not mix complex and real dtypes (`ValueError`
otherwise — the source guards the set-building in a redundant `for _ in self`
loop, which builds the same sets whenever the block list is non-empty, an
emptiness that is preserved here); the result pairs the winning association
with the last `scalars` seen. -/
def MultiBlock.set_active_scalars (name : Option String) (preference : Pref)
    (allow_missing : Bool) : MultiBlock → Except Err (Assoc × ArrInfo)
  | .mk _ slots _ => do
    let (data_assoc, last) ← collectAssoc slots
    if name.isNone then
      .ok (Assoc.none, emptyArr)
    else if data_assoc.isEmpty then
      .error .notFound
    else
      let field0 := (data_assoc.head?.map (·.1)).getD Assoc.none
      let field_asc :=
        if field0 ≠ preference.toAssoc ∧ (data_assoc.any (·.1 = preference.toAssoc)) then
          preference.toAssoc
        else field0
      let matching := data_assoc.filter (·.1 = field_asc)
      let dims := if slots.isEmpty then [] else distinctList (matching.map (·.2.ndim))
      let dtypes := if slots.isEmpty then [] else distinctList (matching.map (·.2.complexDtype))
      if 1 < dims.length then .error .inconsistentField
      else if dtypes.any id && !dtypes.all id then .error .inconsistentField
      else .ok (field_asc, last.getD emptyArr)
where
  /-- The main loop: returns `data_assoc` (in traversal order) and the final
  value of the running `scalars` variable. -/
  collectAssoc : List Slot → Except Err (List (Assoc × ArrInfo) × Option ArrInfo)
  | [] => .ok ([], Option.none)
  | (_, Option.none) :: rest => collectAssoc rest
  | (_, some (.inl d)) :: rest => do
    let fs ←
      match d.set_active_scalars name preference with
      | .ok (f, scalarsOut) =>
        match scalarsOut with
        | Option.none => Except.ok (Assoc.none, emptyArr)
        | some sc => Except.ok (f, sc)
      | .error e =>
        -- `except KeyError: if not allow_missing: raise` (the skip also
        -- deactivates the leaf, unobservable on our stateless datasets)
        if e = Err.notFound && allow_missing then Except.ok (Assoc.none, emptyArr)
        else Except.error e
    let (ra, rl) ← collectAssoc rest
    .ok ((if fs.1 ≠ Assoc.none then fs :: ra else ra), some (rl.getD fs.2))
  | (_, some (.inr sub)) :: rest => do
    let fs ← set_active_scalars name preference allow_missing sub
    let (ra, rl) ← collectAssoc rest
    .ok ((if fs.1 ≠ Assoc.none then fs :: ra else ra), some (rl.getD fs.2))

/-- The leaf dataset carries an array of the given name (in either space). -/
def Dataset.hasArray (d : Dataset) (s : String) : Bool :=
  (findField d.point_data s).isSome || (findField d.cell_data s).isSome

/-- The leaf dataset carries the named array in the preferred space. -/
def Dataset.hasPrefArray (d : Dataset) (s : String) (preference : Pref) : Bool :=
  match preference with
  | .point => (findField d.point_data s).isSome
  | .cell => (findField d.cell_data s).isSome

/-- Some block, transitively through nested containers, carries an array of
the given name. -/
def MultiBlock.hasArrayAnywhere (s : String) : MultiBlock → Bool
  | .mk _ slots _ => go slots
where
  go : List Slot → Bool
  | [] => false
  | (_, Option.none) :: rest => go rest
  | (_, some (.inl d)) :: rest => d.hasArray s || go rest
  | (_, some (.inr sub)) :: rest => hasArrayAnywhere s sub || go rest

/-- Some block, transitively, offers the named array under the preferred
association. -/
def MultiBlock.offersUnderPref (s : String) (preference : Pref) : MultiBlock → Bool
  | .mk _ slots _ => go slots
where
  go : List Slot → Bool
  | [] => false
  | (_, Option.none) :: rest => go rest
  | (_, some (.inl d)) :: rest => d.hasPrefArray s preference || go rest
  | (_, some (.inr sub)) :: rest => offersUnderPref s preference sub || go rest

/-- The association a leaf's activation resolves to, when the leaf has the
array: the preference when both spaces have it, otherwise the one space that
does. -/
def Dataset.resolvedAssoc (d : Dataset) (s : String) (preference : Pref) : Option Assoc :=
  match findField d.point_data s, findField d.cell_data s with
  | some _, some _ => some preference.toAssoc
  | some _, Option.none => some Assoc.point
  | Option.none, some _ => some Assoc.cell
  | Option.none, Option.none => Option.none

/-- The association of the first contributing block in traversal order: the
activation association of the first leaf, depth-first, that carries the named
array. -/
def MultiBlock.firstLeafAssoc (s : String) (preference : Pref) : MultiBlock → Option Assoc
  | .mk _ slots _ => go slots
where
  go : List Slot → Option Assoc
  | [] => Option.none
  | (_, Option.none) :: rest => go rest
  | (_, some (.inl d)) :: rest => (d.resolvedAssoc s preference) <|> go rest
  | (_, some (.inr sub)) :: rest => (firstLeafAssoc s preference sub) <|> go rest

/-- Structural size of a container (for induction over the nesting). -/
def MultiBlock.size : MultiBlock → Nat
  | .mk _ slots _ => sizeSlots slots + 1
where
  /-- Total size of a slot list. -/
  sizeSlots : List Slot → Nat
  | [] => 0
  | (_, some (.inr sub)) :: rest => size sub + sizeSlots rest + 1
  | _ :: rest => sizeSlots rest + 1

/-! ## Concrete objects used by the claims

Each container below is reachable through the public construction API; the
`_built` lemmas in the theorem section witness the construction. -/

/-- The retention-table update performed by storing a payload into a slot that
held no payload (a convenience abbreviation for stating theorems). -/
def addRef (refs : List Nat) : Option Payload → List Nat
  | some p => insertRef refs p.addr
  | Option.none => refs

/-- A plain leaf dataset with 8 points, a unit-box bound, and no field
arrays. -/
def plainDs (a : Nat) : Dataset := ⟨a, 8, ⟨0, 1, 0, 1, 0, 1⟩, [], []⟩

/-- The payload holding `plainDs a`. -/
def plainLeaf (a : Nat) : Option Payload := some (.inl (plainDs a))

/-- An empty container (`MultiBlock()`). -/
def emptyMB : MultiBlock := .mk 50 [] []

/-- Model of `MultiBlock([d0, d1, d2])`: a three-block container, as built by three
appends (each `append` stamps the default name of its position). -/
def threeBlocks : MultiBlock :=
  .mk 100
    [(some "Block-00", plainLeaf 0), (some "Block-01", plainLeaf 1),
     (some "Block-02", plainLeaf 2)] [0, 1, 2]

/-- A one-block container whose single block carries the explicit name `"x"`
(`c.append(d, "x")`). -/
def oneNamedX : MultiBlock := .mk 100 [(some "x", plainLeaf 0)] [0]

/-- A one-slot container holding no payload and no name, as produced by the
public `n_blocks` setter (`c.n_blocks = 1`, backed by `SetNumberOfBlocks`). -/
def oneUnnamed : MultiBlock := .mk 100 [(Option.none, Option.none)] []

/-- The dataset with the given bounds (8 points, no field data). -/
def boxDs (a : Nat) (b : B6) : Dataset := ⟨a, 8, b, [], []⟩

/-- Model of `MultiBlock([box1, box2])` with bounds `(0,1,0,1,0,1)` and
`(2,3,0,1,0,1)`. -/
def twoBoxes : MultiBlock :=
  .mk 100
    [(some "Block-00", some (.inl (boxDs 0 ⟨0, 1, 0, 1, 0, 1⟩))),
     (some "Block-01", some (.inl (boxDs 1 ⟨2, 3, 0, 1, 0, 1⟩)))] [0, 1]

/-- The slot-wise effect of the marking pass: nested containers are cleaned in
place, all other slots are untouched. -/
def cleanSlotFn (x : Slot) : Slot :=
  match x with
  | (nm, some (.inr sub)) => (nm, some (.inr (MultiBlock.clean true sub)))
  | s => s

/-- A leaf carrying the array `"T"` only in its point-indexed space. -/
def leafPointT : Dataset := ⟨10, 8, ⟨0, 1, 0, 1, 0, 1⟩, [("T", ⟨1, false⟩)], []⟩

/-- A leaf carrying the array `"T"` only in its cell-indexed space. -/
def leafCellT : Dataset := ⟨11, 8, ⟨0, 1, 0, 1, 0, 1⟩, [], [("T", ⟨1, false⟩)]⟩

/-- A container holding one point-only-`"T"` leaf and one cell-only-`"T"`
leaf. -/
def mixedT : MultiBlock :=
  .mk 100
    [(some "Block-00", some (.inl leafPointT)),
     (some "Block-01", some (.inl leafCellT))] [10, 11]

/-! ## Toolkit lemmas about the primitive operations -/

@[simp] theorem MultiBlock.addr_mk (a : Nat) (s : List Slot) (r : List Nat) :
    (MultiBlock.mk a s r).addr = a := rfl

@[simp] theorem MultiBlock.slots_mk (a : Nat) (s : List Slot) (r : List Nat) :
    (MultiBlock.mk a s r).slots = s := rfl

@[simp] theorem MultiBlock.refs_mk (a : Nat) (s : List Slot) (r : List Nat) :
    (MultiBlock.mk a s r).refs = r := rfl

@[simp] theorem MultiBlock.n_blocks_mk (a : Nat) (s : List Slot) (r : List Nat) :
    (MultiBlock.mk a s r).n_blocks = s.length := rfl

theorem resolveIndex_nat_eq {n i : Nat} (h : i < n) : resolveIndex n (i : Int) = some i := by
  simp [resolveIndex]
  omega

theorem resolveIndex_lt {n : Nat} {idx : Int} {i : Nat}
    (h : resolveIndex n idx = some i) : i < n := by
  unfold resolveIndex at h
  split_ifs at h with h1 h2 <;> simp_all <;> omega

theorem resolveIndex_isSome_iff {n : Nat} {idx : Int} :
    (resolveIndex n idx).isSome ↔ (-(n : Int) ≤ idx ∧ idx < (n : Int)) := by
  unfold resolveIndex
  split_ifs with h1 h2 <;> simp <;> omega

theorem resolveIndex_eq_none {n : Nat} {idx : Int}
    (h : idx < -(n : Int) ∨ (n : Int) ≤ idx) : resolveIndex n idx = none := by
  unfold resolveIndex
  split_ifs with h1 h2 <;> first | rfl | omega

@[simp] theorem length_setPayloadAt (s : List Slot) (i : Nat) (d : Option Payload) :
    (setPayloadAt s i d).length = s.length := by
  unfold setPayloadAt; split <;> simp

@[simp] theorem length_setNameAt (s : List Slot) (i : Nat) (nm : String) :
    (setNameAt s i nm).length = s.length := by
  unfold setNameAt; split <;> simp

theorem getElem?_setPayloadAt_self {s : List Slot} {i : Nat} (d : Option Payload)
    (h : i < s.length) :
    (setPayloadAt s i d)[i]? = s[i]?.map (fun sl => (sl.1, d)) := by
  unfold setPayloadAt
  rw [List.getElem?_eq_getElem h]
  simp [List.getElem?_set_self h]

theorem getElem?_setPayloadAt_ne {s : List Slot} {i j : Nat} (d : Option Payload)
    (h : j ≠ i) : (setPayloadAt s i d)[j]? = s[j]? := by
  unfold setPayloadAt
  split
  · rw [List.getElem?_set_ne (fun hh => h hh.symm)]
  · rfl

theorem getElem?_setNameAt_self {s : List Slot} {i : Nat} (nm : String)
    (h : i < s.length) :
    (setNameAt s i nm)[i]? = s[i]?.map (fun sl => (some nm, sl.2)) := by
  unfold setNameAt
  rw [List.getElem?_eq_getElem h]
  simp [List.getElem?_set_self h]

theorem getElem?_setNameAt_ne {s : List Slot} {i j : Nat} (nm : String)
    (h : j ≠ i) : (setNameAt s i nm)[j]? = s[j]? := by
  unfold setNameAt
  split
  · rw [List.getElem?_set_ne (fun hh => h hh.symm)]
  · rfl

@[simp] theorem MultiBlock.setResolved_addr (m : MultiBlock) (i : Nat)
    (d : Option Payload) (nm : Option String) : (m.setResolved i d nm).addr = m.addr := rfl

@[simp] theorem MultiBlock.setResolved_n_blocks (m : MultiBlock) (i : Nat)
    (d : Option Payload) (nm : Option String) :
    (m.setResolved i d nm).n_blocks = m.n_blocks := by
  simp [MultiBlock.setResolved, MultiBlock.n_blocks]

theorem MultiBlock.nameAt_setResolved_self (m : MultiBlock) (i : Nat)
    (d : Option Payload) (nm : Option String) (h : i < m.n_blocks) :
    (m.setResolved i d nm).nameAt i = some (nm.getD (defaultName i)) := by
  have h1 : i < (setPayloadAt m.slots i d).length := by
    simpa [MultiBlock.n_blocks] using h
  have h2 : i < m.slots.length := by simpa [MultiBlock.n_blocks] using h
  simp [MultiBlock.setResolved, MultiBlock.nameAt, getElem?_setNameAt_self _ h1,
    getElem?_setPayloadAt_self _ h2, List.getElem?_eq_getElem h2]

theorem MultiBlock.payloadAt_setResolved_self (m : MultiBlock) (i : Nat)
    (d : Option Payload) (nm : Option String) (h : i < m.n_blocks) :
    (m.setResolved i d nm).payloadAt i = d := by
  have h1 : i < (setPayloadAt m.slots i d).length := by
    simpa [MultiBlock.n_blocks] using h
  have h2 : i < m.slots.length := by simpa [MultiBlock.n_blocks] using h
  simp [MultiBlock.setResolved, MultiBlock.payloadAt, getElem?_setNameAt_self _ h1,
    getElem?_setPayloadAt_self _ h2, List.getElem?_eq_getElem h2]

theorem MultiBlock.getElem?_setResolved_ne (m : MultiBlock) {i j : Nat}
    (d : Option Payload) (nm : Option String) (h : j ≠ i) :
    (m.setResolved i d nm).slots[j]? = m.slots[j]? := by
  simp [MultiBlock.setResolved, getElem?_setNameAt_ne _ h, getElem?_setPayloadAt_ne _ h]

theorem MultiBlock.setitem_int_eq_ok {m : MultiBlock} {index : Int} {i : Nat}
    (d : Option Payload) (nm : Option String)
    (h : resolveIndex m.n_blocks index = some i) :
    m.setitem_int index d nm = .ok (m.setResolved i d nm) := by
  simp [MultiBlock.setitem_int, h]

theorem MultiBlock.setitem_int_eq_error {m : MultiBlock} {index : Int}
    (d : Option Payload) (nm : Option String)
    (h : resolveIndex m.n_blocks index = none) :
    m.setitem_int index d nm = .error .outOfRange := by
  simp [MultiBlock.setitem_int, h]

@[simp] theorem MultiBlock.set_block_name_none (m : MultiBlock) (index : Int) :
    m.set_block_name index Option.none = .ok m := rfl

theorem MultiBlock.set_block_name_some {m : MultiBlock} {index : Int} {i : Nat}
    (s : String) (h : resolveIndex m.n_blocks index = some i) :
    m.set_block_name index (some s) = .ok (.mk m.addr (setNameAt m.slots i s) m.refs) := by
  simp [MultiBlock.set_block_name, h]

@[simp] theorem MultiBlock.growOne_slots (m : MultiBlock) :
    m.growOne.slots = m.slots ++ [(Option.none, Option.none)] := rfl

@[simp] theorem MultiBlock.growOne_addr (m : MultiBlock) : m.growOne.addr = m.addr := rfl

@[simp] theorem MultiBlock.growOne_refs (m : MultiBlock) : m.growOne.refs = m.refs := rfl

@[simp] theorem MultiBlock.growOne_n_blocks (m : MultiBlock) :
    m.growOne.n_blocks = m.n_blocks + 1 := by
  simp [MultiBlock.growOne, MultiBlock.n_blocks]

theorem set_concat_length {α : Type} (l : List α) (x y : α) :
    (l ++ [x]).set l.length y = l ++ [y] := by
  induction l with
  | nil => rfl
  | cons a l ih => simp [List.set, ih]

@[simp] theorem ok_bind {e a b : Type} (x : a) (f : a → Except e b) :
    (Except.ok x : Except e a) >>= f = f x := rfl

@[simp] theorem error_bind {e a b : Type} (err : e) (f : a → Except e b) :
    (Except.error err : Except e a) >>= f = Except.error err := rfl

theorem setPayloadAt_concat (l : List Slot) (x : Slot) (d : Option Payload) :
    setPayloadAt (l ++ [x]) l.length d = l ++ [(x.1, d)] := by
  unfold setPayloadAt
  rw [List.getElem?_concat_length]
  cases x with
  | mk a b => simp [set_concat_length]

theorem setNameAt_concat (l : List Slot) (x : Slot) (nm : String) :
    setNameAt (l ++ [x]) l.length nm = l ++ [(some nm, x.2)] := by
  unfold setNameAt
  rw [List.getElem?_concat_length]
  cases x with
  | mk a b => simp [set_concat_length]

theorem MultiBlock.appendBody_eq (m : MultiBlock) (d : Option Payload) (nm : Option String) :
    MultiBlock.append.appendBody m d nm =
      .ok (.mk m.addr (m.slots ++ [(some (nm.getD (defaultName m.n_blocks)), d)])
        (addRef m.refs d)) := by
  have hlen : m.n_blocks = m.slots.length := rfl
  have hres : resolveIndex m.growOne.n_blocks (m.n_blocks : Int) = some m.n_blocks := by
    rw [MultiBlock.growOne_n_blocks]
    exact resolveIndex_nat_eq (Nat.lt_succ_self _)
  have hpay : m.growOne.payloadAt m.n_blocks = Option.none := by
    simp [MultiBlock.payloadAt, MultiBlock.growOne_slots, hlen, List.getElem?_concat_length]
  have h1 : setPayloadAt m.growOne.slots m.n_blocks d =
      m.slots ++ [((Option.none : Option String), d)] := by
    rw [MultiBlock.growOne_slots, hlen]
    exact setPayloadAt_concat _ _ _
  have h2 : setNameAt (m.slots ++ [((Option.none : Option String), d)]) m.n_blocks
      (defaultName m.n_blocks) = m.slots ++ [(some (defaultName m.n_blocks), d)] := by
    rw [hlen]
    exact setNameAt_concat _ _ _
  have hsr : m.growOne.setResolved m.n_blocks d Option.none =
      .mk m.addr (m.slots ++ [(some (defaultName m.n_blocks), d)]) (addRef m.refs d) := by
    simp only [MultiBlock.setResolved, hpay, Option.getD_none, h1, h2]
    cases d <;>
      simp [addRef, MultiBlock.growOne_refs, MultiBlock.growOne_addr]
  unfold MultiBlock.append.appendBody
  simp only [MultiBlock.setitem_int_eq_ok d Option.none hres, hsr, ok_bind]
  cases nm with
  | none => simp
  | some s =>
    have hres2 : resolveIndex (MultiBlock.mk m.addr
        (m.slots ++ [(some (defaultName m.n_blocks), d)]) (addRef m.refs d)).n_blocks
        (m.n_blocks : Int) = some m.n_blocks := by
      simp only [MultiBlock.n_blocks_mk, List.length_append, List.length_cons,
        List.length_nil]
      exact resolveIndex_nat_eq (by omega)
    rw [MultiBlock.set_block_name_some s hres2]
    simp only [MultiBlock.addr_mk, MultiBlock.slots_mk, MultiBlock.refs_mk]
    rw [hlen, setNameAt_concat]
    simp

theorem MultiBlock.append_eq_ok (m : MultiBlock) (d : Option Payload) (nm : Option String)
    (hself : ∀ sub, d = some (.inr sub) → sub.addr ≠ m.addr) :
    m.append d nm =
      .ok (.mk m.addr (m.slots ++ [(some (nm.getD (defaultName m.n_blocks)), d)])
        (addRef m.refs d)) := by
  match hd : d with
  | Option.none => rw [← MultiBlock.appendBody_eq]; rfl
  | some (.inl ds) => rw [← MultiBlock.appendBody_eq]; rfl
  | some (.inr sub) =>
    have hne : sub.addr ≠ m.addr := hself sub rfl
    rw [← MultiBlock.appendBody_eq]
    simp [MultiBlock.append, hne]

theorem MultiBlock.shiftStep_ok (m : MultiBlock) (j : Nat) (h : j + 1 < m.n_blocks) :
    ∃ m', m.shiftStep j = .ok m' ∧ m'.n_blocks = m.n_blocks := by
  have hcast : ((j : Int) + 1) = ((j + 1 : Nat) : Int) := by push_cast; ring
  have hres : resolveIndex m.n_blocks ((j : Int) + 1) = some (j + 1) := by
    rw [hcast]; exact resolveIndex_nat_eq h
  unfold MultiBlock.shiftStep
  rw [MultiBlock.setitem_int_eq_ok _ _ hres, ok_bind]
  match hn : m.nameAt j with
  | Option.none => exact ⟨_, rfl, by simp⟩
  | some s =>
    have hres2 : resolveIndex (m.setResolved (j + 1) (m.payloadAt j) Option.none).n_blocks
        ((j : Int) + 1) = some (j + 1) := by
      rw [MultiBlock.setResolved_n_blocks, hcast]; exact resolveIndex_nat_eq h
    rw [MultiBlock.set_block_name_some s hres2]
    refine ⟨_, rfl, ?_⟩
    have hnb := MultiBlock.setResolved_n_blocks m (j + 1) (m.payloadAt j) Option.none
    simpa [MultiBlock.n_blocks] using hnb

theorem MultiBlock.shiftLoop_ok (cnt : Nat) :
    ∀ (m : MultiBlock) (lo : Nat), lo + cnt < m.n_blocks →
      ∃ m', m.shiftLoop lo cnt = .ok m' ∧ m'.n_blocks = m.n_blocks := by
  induction cnt with
  | zero => exact fun m lo _ => ⟨m, rfl, rfl⟩
  | succ c ih =>
    intro m lo h
    obtain ⟨m1, hstep, hn1⟩ := m.shiftStep_ok (lo + c) (by omega)
    obtain ⟨m2, hloop, hn2⟩ := ih m1 lo (by omega)
    exact ⟨m2, by simp [MultiBlock.shiftLoop, hstep, hloop], by omega⟩

theorem threeBlocks_built :
    ((((MultiBlock.mk 100 [] []).append (plainLeaf 0) Option.none).bind
        (fun m => m.append (plainLeaf 1) Option.none)).bind
      (fun m => m.append (plainLeaf 2) Option.none)) = .ok threeBlocks := rfl

theorem oneNamedX_built :
    (MultiBlock.mk 100 [] []).append (plainLeaf 0) (some "x") = .ok oneNamedX := rfl

theorem oneUnnamed_built : (MultiBlock.mk 100 [] []).growOne = oneUnnamed := rfl

/-! ## C7 — self-append rejection -/

/-- Claim **C7**: for every container `c`, `c.append(c)` fails with the
TypeMismatch error (`ValueError: Cannot nest a composite dataset in itself.`).
The check is the first statement of `append` (`composite.py:447-449`), before
any mutation, and the model returns the error without producing any new state,
so the container keeps its slots and its retention table. -/
theorem append_self_rejected (m : MultiBlock) (name : Option String) :
    m.append (some (.inr m)) name = .error .typeMismatch := by
  simp [MultiBlock.append]

/-! ## C10 — `insert` index validation -/

/-- Claim **C10**: `insert(index, dataset, name)` succeeds exactly when the index is
readable, `-n ≤ index ≤ n - 1` (Python-style negatives); in particular
`insert(n, ...)` — the position a standard `MutableSequence.insert` would
treat as an append — fails with OutOfRange (`IndexError`), the resolution
`range(self.n_blocks)[index]` being the first statement of `insert`
(`composite.py:806`), before any mutation. -/
theorem insert_requires_readable_index (m : MultiBlock) (index : Int)
    (dataset : Option Payload) (name : Option String) :
    ((∃ m', m.insert index dataset name = .ok m') ↔
      (-(m.n_blocks : Int) ≤ index ∧ index ≤ (m.n_blocks : Int) - 1)) ∧
    m.insert (m.n_blocks : Int) dataset name = .error .outOfRange := by
  constructor
  · constructor
    · intro ⟨m', hm'⟩
      by_contra hout
      have : resolveIndex m.n_blocks index = none := by
        apply resolveIndex_eq_none; omega
      simp [MultiBlock.insert, this] at hm'
    · intro hin
      have hsome : (resolveIndex m.n_blocks index).isSome := by
        rw [resolveIndex_isSome_iff]; omega
      obtain ⟨i, hi⟩ := Option.isSome_iff_exists.mp hsome
      have hilt : i < m.n_blocks := resolveIndex_lt hi
      obtain ⟨m2, hloop, hn2⟩ := MultiBlock.shiftLoop_ok (m.n_blocks - i)
        m.growOne i (by simp; omega)
      have hres3 : resolveIndex m2.n_blocks (i : Int) = some i := by
        apply resolveIndex_nat_eq; simp at hn2; omega
      have hres4 :
          resolveIndex (m2.setResolved i dataset Option.none).n_blocks (i : Int) = some i := by
        rw [MultiBlock.setResolved_n_blocks]; exact hres3
      match hname : name with
      | Option.none =>
        refine ⟨m2.setResolved i dataset Option.none, ?_⟩
        simp [MultiBlock.insert, hi, hloop, MultiBlock.setitem_int_eq_ok _ _ hres3]
      | some s =>
        refine ⟨.mk (m2.setResolved i dataset Option.none).addr
            (setNameAt (m2.setResolved i dataset Option.none).slots i s)
            (m2.setResolved i dataset Option.none).refs, ?_⟩
        simp [MultiBlock.insert, hi, hloop, MultiBlock.setitem_int_eq_ok _ _ hres3,
          MultiBlock.set_block_name_some s hres4]
  · have : resolveIndex m.n_blocks (m.n_blocks : Int) = none := by
      apply resolveIndex_eq_none; omega
    simp [MultiBlock.insert, this]

/-! ## C1 — full-slice assignment with growth or shrink -/

/-- Claim **C1** (evidence for the divergence): on the three-block container, the
full-slice assignment `c[:] = [d10, ..., d14]` reaches its fourth payload and
calls `self.insert(3, d13)` ("insert after last entry"), whose first statement
`range(self.n_blocks)[3]` raises `IndexError`; likewise `c[:] = [d10]` reaches
its second resolved position and runs `del self[3]` ("delete next entry"),
whose `_remove_ref` lookup `self[3]` raises `IndexError`.  Neither documented
grow/shrink reconciliation can ever run for a slice extending to the last
position, because both `insert` and `__delitem__` reject the position
`n_blocks`.  An equal-length full-slice assignment, by contrast, succeeds. -/
theorem setitem_slice_full_grow_shrink_raises :
    threeBlocks.setitem_sliceAll
        [plainLeaf 10, plainLeaf 11, plainLeaf 12, plainLeaf 13, plainLeaf 14] =
      .error .outOfRange ∧
    threeBlocks.setitem_sliceAll [plainLeaf 10] = .error .outOfRange ∧
    (threeBlocks.setitem_sliceAll [plainLeaf 10, plainLeaf 11, plainLeaf 12]).isOk = true :=
  ⟨rfl, rfl, rfl⟩

/-! ## C2 — integer assignment and pre-existing names -/

/-- Claim **C2 (counterexample)**: the container `oneNamedX` carries the name `"x"`
at position 0; after `c[0] = new_payload` (no explicit name) the name at 0 is
the default `"Block-00"`, not the pre-existing `"x"` — `__setitem__`
(`composite.py:733-735`) substitutes the default name whenever no explicit
name is supplied, without checking for a previously set name. -/
theorem setitem_int_erases_existing_name :
    oneNamedX.nameAt 0 = some "x" ∧
    (oneNamedX.setitem_int 0 (plainLeaf 5) Option.none).map (fun m => m.nameAt 0) =
      .ok (some "Block-00") ∧
    (some "Block-00" : Option String) ≠ some "x" :=
  ⟨rfl, rfl, by decide⟩

/-- Claim **C2 (amended)**: single-slot integer assignment without an explicit name
always assigns the generated default name `"Block-%02d"` of the resolved
position — overwriting any pre-existing name — while storing the payload at
that position and leaving every other slot unchanged.  (Name preservation is
obtained only through `replace` or an explicit name.) -/
theorem setitem_int_assigns_default_name (m : MultiBlock) (index : Int)
    (d : Option Payload) (i : Nat) (h : resolveIndex m.n_blocks index = some i) :
    ∃ m', m.setitem_int index d Option.none = .ok m' ∧
      m'.nameAt i = some (defaultName i) ∧ m'.payloadAt i = d ∧
      (∀ j, j ≠ i → m'.slots[j]? = m.slots[j]?) := by
  refine ⟨m.setResolved i d Option.none, MultiBlock.setitem_int_eq_ok d _ h, ?_, ?_, ?_⟩
  · simpa using MultiBlock.nameAt_setResolved_self m i d Option.none (resolveIndex_lt h)
  · exact MultiBlock.payloadAt_setResolved_self m i d Option.none (resolveIndex_lt h)
  · intro j hj
    exact MultiBlock.getElem?_setResolved_ne m d Option.none hj

theorem setitem_int_assigns_default_name_witness :
    ∃ m', oneNamedX.setitem_int 0 (plainLeaf 5) Option.none = .ok m' ∧
      m'.nameAt 0 = some (defaultName 0) ∧ m'.payloadAt 0 = plainLeaf 5 ∧
      (∀ j, j ≠ 0 → m'.slots[j]? = oneNamedX.slots[j]?) :=
  setitem_int_assigns_default_name oneNamedX 0 (plainLeaf 5) 0 (by rfl)

/-! ## C5 — `replace` and name preservation -/

/-- Claim **C5 (counterexample)**: on a slot whose name is `None` (as produced by
the public `n_blocks` setter), `replace(0, d)` does not keep the name equal to
the prior `None`: the intermediate `self[index] = dataset` stamps the default
`"Block-00"`, and the final `set_block_name(index, None)` is a no-op, so the
default persists. -/
theorem replace_on_unnamed_slot_stamps_default :
    oneUnnamed.nameAt 0 = Option.none ∧
    (oneUnnamed.replace 0 (plainLeaf 5)).map (fun m => m.nameAt 0) =
      .ok (some "Block-00") ∧
    (some "Block-00" : Option String) ≠ Option.none :=
  ⟨rfl, rfl, by decide⟩

/-- Claim **C5 (amended)**: for every valid index, `replace(index, d)` stores the
payload at the resolved position and keeps any existing non-`None` name
there; when the slot had no name, the generated default `"Block-%02d"` is
assigned instead.  All other slots (payloads and names) and the block count
are unchanged. -/
theorem replace_preserves_existing_name (m : MultiBlock) (index : Int)
    (d : Option Payload) (i : Nat) (h : resolveIndex m.n_blocks index = some i) :
    ∃ m', m.replace index d = .ok m' ∧
      m'.payloadAt i = d ∧
      m'.nameAt i = some ((m.nameAt i).getD (defaultName i)) ∧
      m'.n_blocks = m.n_blocks ∧
      (∀ j, j ≠ i → m'.slots[j]? = m.slots[j]?) := by
  have hlt : i < m.n_blocks := resolveIndex_lt h
  have hget : m.get_block_name index = .ok (m.nameAt i) := by
    simp [MultiBlock.get_block_name, h]
  have hres2 : resolveIndex (m.setResolved i d Option.none).n_blocks index = some i := by
    rw [MultiBlock.setResolved_n_blocks]; exact h
  match hn : m.nameAt i with
  | Option.none =>
    refine ⟨m.setResolved i d Option.none, ?_, ?_, ?_, ?_, ?_⟩
    · simp [MultiBlock.replace, hget, hn, MultiBlock.setitem_int_eq_ok d _ h]
    · exact MultiBlock.payloadAt_setResolved_self m i d Option.none hlt
    · simpa using MultiBlock.nameAt_setResolved_self m i d Option.none hlt
    · simp
    · exact fun j hj => MultiBlock.getElem?_setResolved_ne m d Option.none hj
  | some s =>
    have hlt1 : i < (m.setResolved i d Option.none).n_blocks := by simpa using hlt
    have hlen1 : i < (m.setResolved i d Option.none).slots.length := hlt1
    refine ⟨.mk (m.setResolved i d Option.none).addr
        (setNameAt (m.setResolved i d Option.none).slots i s)
        (m.setResolved i d Option.none).refs, ?_, ?_, ?_, ?_, ?_⟩
    · simp [MultiBlock.replace, hget, hn, MultiBlock.setitem_int_eq_ok d _ h,
        MultiBlock.set_block_name_some s hres2]
    · have hp := MultiBlock.payloadAt_setResolved_self m i d Option.none hlt
      obtain ⟨sl, hsl⟩ : ∃ sl, (m.setResolved i d Option.none).slots[i]? = some sl :=
        List.getElem?_eq_getElem hlen1 ▸ ⟨_, rfl⟩
      simp only [MultiBlock.payloadAt] at hp
      simp only [MultiBlock.payloadAt, MultiBlock.slots_mk,
        getElem?_setNameAt_self _ hlen1, hsl, Option.map_some, Option.bind_some] at hp ⊢
      exact hp
    · simp [MultiBlock.nameAt, getElem?_setNameAt_self _ hlen1,
        List.getElem?_eq_getElem hlen1]
    · have hnb := MultiBlock.setResolved_n_blocks m i d Option.none
      simpa [MultiBlock.n_blocks] using hnb
    · intro j hj
      simp [getElem?_setNameAt_ne _ hj, MultiBlock.getElem?_setResolved_ne m d Option.none hj]

theorem replace_preserves_existing_name_witness :
    (∃ m', oneNamedX.replace 0 (plainLeaf 5) = .ok m' ∧
      m'.payloadAt 0 = plainLeaf 5 ∧
      m'.nameAt 0 = some ((oneNamedX.nameAt 0).getD (defaultName 0)) ∧
      m'.n_blocks = oneNamedX.n_blocks ∧
      (∀ j, j ≠ 0 → m'.slots[j]? = oneNamedX.slots[j]?)) ∧
    (oneNamedX.nameAt 0).getD (defaultName 0) = "x" :=
  ⟨replace_preserves_existing_name oneNamedX 0 (plainLeaf 5) 0 (by rfl), by rfl⟩

/-! ## C9 — name-keyed assignment with a fresh name -/

theorem MultiBlock.scan_some_lt (s : String) :
    ∀ (l : List Slot) (k i : Nat),
      MultiBlock.get_index_by_name.scan s l k = some i → k ≤ i ∧ i < k + l.length := by
  intro l
  induction l with
  | nil => intro k i h; simp [MultiBlock.get_index_by_name.scan] at h
  | cons slot rest ih =>
    intro k i h
    rw [MultiBlock.get_index_by_name.scan] at h
    by_cases hs : slot.1 = some s
    · rw [if_pos hs] at h
      injection h with h
      subst h
      refine ⟨Nat.le_refl _, ?_⟩
      simp only [List.length_cons]
      omega
    · rw [if_neg hs] at h
      have := ih (k + 1) i h
      refine ⟨by omega, ?_⟩
      simp only [List.length_cons]
      omega

theorem MultiBlock.get_index_by_name_lt {m : MultiBlock} {s : String} {i : Nat}
    (h : m.get_index_by_name s = some i) : i < m.n_blocks := by
  have := MultiBlock.scan_some_lt s m.slots 0 i h
  simpa [MultiBlock.n_blocks] using this

/-- Claim **C9 (counterexample)**: name-keyed assignment with a fresh name is not
failure-free for every payload: storing the container into itself,
`c["x"] = c`, takes the append branch of `__setitem__` and fails with the
TypeMismatch (self-containment) error of `append`. -/
theorem setitem_str_self_payload_fails :
    emptyMB.get_index_by_name "x" = Option.none ∧
    emptyMB.setitem_str "x" (some (.inr emptyMB)) = .error .typeMismatch :=
  ⟨rfl, rfl⟩

/-- Claim **C9 (amended)**: for every container, string `s` matching no current
block name, and payload other than the container itself, `c[s] = payload`
does not fail: it appends a block with name `s` and the payload at the end,
raising the length by one and leaving every existing slot, name, and retained
entry unchanged (the retention table grows by the payload's address); when `s`
matches an existing name, the first matching slot is overwritten in place
(same length, payload and name `s` at that position, other slots
untouched). -/
theorem setitem_str_fresh_appends (m : MultiBlock) (s : String) (d : Option Payload)
    (hself : ∀ sub, d = some (.inr sub) → sub.addr ≠ m.addr) :
    (m.get_index_by_name s = Option.none →
      m.setitem_str s d =
        .ok (.mk m.addr (m.slots ++ [(some s, d)]) (addRef m.refs d))) ∧
    (∀ i, m.get_index_by_name s = some i →
      ∃ m', m.setitem_str s d = .ok m' ∧ m'.n_blocks = m.n_blocks ∧
        m'.payloadAt i = d ∧ m'.nameAt i = some s ∧
        (∀ j, j ≠ i → m'.slots[j]? = m.slots[j]?)) := by
  constructor
  · intro hnone
    unfold MultiBlock.setitem_str
    rw [hnone]
    simpa using MultiBlock.append_eq_ok m d (some s) hself
  · intro i hsome
    have hlt : i < m.n_blocks := MultiBlock.get_index_by_name_lt hsome
    have hres : resolveIndex m.n_blocks (i : Int) = some i := resolveIndex_nat_eq hlt
    refine ⟨m.setResolved i d (some s), ?_, by simp, ?_, ?_, ?_⟩
    · unfold MultiBlock.setitem_str
      rw [hsome]
      exact MultiBlock.setitem_int_eq_ok d _ hres
    · exact MultiBlock.payloadAt_setResolved_self m i d (some s) hlt
    · simpa using MultiBlock.nameAt_setResolved_self m i d (some s) hlt
    · exact fun j hj => MultiBlock.getElem?_setResolved_ne m d (some s) hj

theorem setitem_str_fresh_appends_witness :
    oneNamedX.setitem_str "y" (plainLeaf 7) =
      .ok (.mk oneNamedX.addr (oneNamedX.slots ++ [(some "y", plainLeaf 7)])
        (addRef oneNamedX.refs (plainLeaf 7))) :=
  (setitem_str_fresh_appends oneNamedX "y" (plainLeaf 7)
    (by intro sub hsub; simp [plainLeaf] at hsub)).1 rfl

/-! ## C6 — bounds aggregation -/

theorem foldl_proj {g : B6 → B6 → B6} {f : B6 → Int} {op : Int → Int → Int}
    (hf : ∀ a b, f (g a b) = op (f a) (f b)) :
    ∀ (l : List B6) (b : B6), f (l.foldl g b) = (l.map f).foldl op (f b) := by
  intro l
  induction l with
  | nil => intro b; rfl
  | cons x rest ih => intro b; simp [List.foldl_cons, ih, hf]

theorem size_pos (m : MultiBlock) : 1 ≤ m.size := by
  match m with
  | .mk a slots r => rw [MultiBlock.size]; omega

theorem sizeSlots_cons_le (x : Slot) (rest : List Slot) :
    MultiBlock.size.sizeSlots rest + 1 ≤ MultiBlock.size.sizeSlots (x :: rest) := by
  match x with
  | (nm, Option.none) => simp [MultiBlock.size.sizeSlots]
  | (nm, some (.inl d)) => simp [MultiBlock.size.sizeSlots]
  | (nm, some (.inr sub)) => simp only [MultiBlock.size.sizeSlots]; omega

theorem size_lt_of_mem {slots : List Slot} {nm : Option String} {sub : MultiBlock}
    (h : (nm, some (.inr sub)) ∈ slots) :
    sub.size < MultiBlock.size.sizeSlots slots + 1 := by
  induction slots with
  | nil => simp at h
  | cons x rest ih =>
    rcases List.mem_cons.mp h with hx | hmem
    · subst hx
      simp [MultiBlock.size.sizeSlots]
      omega
    · have h1 := ih hmem
      have h2 := sizeSlots_cons_le x rest
      omega

theorem collectBounds_eq_specContrib :
    ∀ (slots : List Slot),
      (∀ (nm : Option String) (sub : MultiBlock), (nm, some (.inr sub)) ∈ slots →
        sub.bounds = sub.specBounds) →
      MultiBlock.bounds.collectBounds slots = MultiBlock.specBounds.specContrib slots := by
  intro slots
  induction slots with
  | nil => intro _; rfl
  | cons x rest ih =>
    intro hsub
    have hrest := ih (fun nm sub hmem => hsub nm sub (List.mem_cons_of_mem x hmem))
    match x with
    | (nm, Option.none) =>
      simpa [MultiBlock.bounds.collectBounds, MultiBlock.specBounds.specContrib] using hrest
    | (nm, some (.inl d)) =>
      simp only [MultiBlock.bounds.collectBounds, MultiBlock.specBounds.specContrib]
      rw [hrest]
    | (nm, some (.inr sub)) =>
      have hs := hsub nm sub (List.mem_cons_self _ _)
      simp only [MultiBlock.bounds.collectBounds, MultiBlock.specBounds.specContrib]
      rw [hrest, hs]

theorem bounds_eq_specBounds_size :
    ∀ (n : Nat) (m : MultiBlock), m.size ≤ n → m.bounds = m.specBounds := by
  intro n
  induction n with
  | zero => intro m hm; have := size_pos m; omega
  | succ n ih =>
    intro m hm
    match m with
    | .mk a slots r =>
      have hsub : ∀ (nm : Option String) (sub : MultiBlock),
          (nm, some (.inr sub)) ∈ slots → sub.bounds = sub.specBounds := by
        intro nm sub hmem
        apply ih
        have h1 := size_lt_of_mem hmem
        rw [MultiBlock.size] at hm
        omega
      rw [MultiBlock.bounds, MultiBlock.specBounds,
        collectBounds_eq_specContrib slots hsub]
      match MultiBlock.specBounds.specContrib slots with
      | [] => rfl
      | b :: rest =>
        have hx : ∀ a c : B6, (bmin a c).xmin = min a.xmin c.xmin := fun _ _ => rfl
        have hy : ∀ a c : B6, (bmin a c).ymin = min a.ymin c.ymin := fun _ _ => rfl
        have hz : ∀ a c : B6, (bmin a c).zmin = min a.zmin c.zmin := fun _ _ => rfl
        have hx2 : ∀ a c : B6, (bmax a c).xmax = max a.xmax c.xmax := fun _ _ => rfl
        have hy2 : ∀ a c : B6, (bmax a c).ymax = max a.ymax c.ymax := fun _ _ => rfl
        have hz2 : ∀ a c : B6, (bmax a c).zmax = max a.zmax c.zmax := fun _ _ => rfl
        simp only [foldl_proj hx, foldl_proj hy, foldl_proj hz,
          foldl_proj hx2, foldl_proj hy2, foldl_proj hz2]

/-- Claim **C6**: the aggregated `bounds` equal, for every container, the claim's
formulation `specBounds` — per-axis minimum of lower bounds and maximum of
upper bounds over all non-null, non-empty blocks, a nested container
contributing its own aggregated bounds as a leaf; in particular the two-box
container aggregates to `(0,3,0,1,0,1)` and a container with no contributing
blocks yields the degenerate origin bounds. -/
theorem bounds_eq_specBounds :
    (∀ m : MultiBlock, m.bounds = m.specBounds) ∧
    twoBoxes.bounds = ⟨0, 3, 0, 1, 0, 1⟩ ∧
    emptyMB.bounds = ⟨0, 0, 0, 0, 0, 0⟩ :=
  ⟨fun m => bounds_eq_specBounds_size m.size m (Nat.le_refl _), rfl, rfl⟩

/-! ## C8 — idempotence of `clean(empty=True)` -/

theorem collectMarks_go_shift (e : Bool) :
    ∀ (l : List Slot) (k : Nat),
      collectMarks.go e l (k + 1) = (collectMarks.go e l k).map (· + 1) := by
  intro l
  induction l with
  | nil => intro k; rfl
  | cons x rest ih =>
    intro k
    by_cases hx : markP e x
    · simp [collectMarks.go, hx, ih (k + 1)]
    · simp [collectMarks.go, hx, ih (k + 1)]

theorem collectMarks_go_lb (e : Bool) :
    ∀ (l : List Slot) (k : Nat), ∀ x ∈ collectMarks.go e l k, k ≤ x := by
  intro l
  induction l with
  | nil => intro k x hx; simp [collectMarks.go] at hx
  | cons s rest ih =>
    intro k x hx
    by_cases hs : markP e s
    · simp [collectMarks.go, hs] at hx
      rcases hx with hx | hx
      · omega
      · have := ih (k + 1) x hx; omega
    · simp [collectMarks.go, hs] at hx
      have := ih (k + 1) x hx; omega

theorem collectMarks_go_pairwise (e : Bool) :
    ∀ (l : List Slot) (k : Nat), List.Pairwise (· < ·) (collectMarks.go e l k) := by
  intro l
  induction l with
  | nil => intro k; simp [collectMarks.go]
  | cons s rest ih =>
    intro k
    by_cases hs : markP e s
    · simp only [collectMarks.go, hs, if_pos]
      refine List.pairwise_cons.mpr ⟨?_, ih (k + 1)⟩
      intro x hx
      have := collectMarks_go_lb e rest (k + 1) x hx
      omega
    · simp only [collectMarks.go, hs, if_neg, Bool.false_eq_true, reduceIte]
      exact ih (k + 1)

theorem collectMarks_cons (e : Bool) (x : Slot) (rest : List Slot) :
    collectMarks e (x :: rest) =
      (if markP e x then [0] else []) ++ (collectMarks e rest).map (· + 1) := by
  unfold collectMarks
  by_cases hx : markP e x
  · simp [collectMarks.go, hx, collectMarks_go_shift e rest 0]
  · simp [collectMarks.go, hx, collectMarks_go_shift e rest 0]

theorem collectMarks_eq_nil_of_unmarked (e : Bool) {slots : List Slot}
    (h : ∀ s ∈ slots, markP e s = false) : collectMarks e slots = [] := by
  induction slots with
  | nil => rfl
  | cons x rest ih =>
    rw [collectMarks_cons]
    have hx := h x (List.mem_cons_self _ _)
    have hrest := ih (fun s hs => h s (List.mem_cons_of_mem x hs))
    simp [hx, hrest]

theorem deleteLoop_cons (s : Slot) :
    ∀ (ms : List Nat) (k : Nat) (rest : List Slot) (refs : List Nat),
      (∀ x ∈ ms, k < x) → List.Pairwise (· < ·) ms →
      deleteLoop k ms (s :: rest) refs =
        ((s :: (deleteLoop k (ms.map (· - 1)) rest refs).1),
         (deleteLoop k (ms.map (· - 1)) rest refs).2) := by
  intro ms
  induction ms with
  | nil => intro k rest refs _ _; rfl
  | cons i tl ih =>
    intro k rest refs hlb hpw
    have hik : k < i := hlb i (List.mem_cons_self _ _)
    have htl_lb : ∀ x ∈ tl, k + 1 < x := by
      intro x hx
      have h1 := (List.pairwise_cons.mp hpw).1 x hx
      omega
    have htl_pw : List.Pairwise (· < ·) tl := (List.pairwise_cons.mp hpw).2
    obtain ⟨j, hj⟩ : ∃ j, i - k = j + 1 := ⟨i - k - 1, by omega⟩
    have hj2 : i - 1 - k = j := by omega
    simp only [deleteLoop, List.map_cons, hj, hj2]
    rw [List.getElem?_cons_succ, List.eraseIdx_cons_succ]
    exact ih (k + 1) (rest.eraseIdx j) _ htl_lb htl_pw

theorem deleteLoop_marks (e : Bool) :
    ∀ (slots : List Slot) (k : Nat) (refs : List Nat),
      deleteLoop k ((collectMarks e slots).map (· + k)) slots refs =
        ((slots.filter fun s => !markP e s),
         (deleteLoop k ((collectMarks e slots).map (· + k)) slots refs).2) := by
  intro slots
  induction slots with
  | nil => intro k refs; rfl
  | cons x rest ih =>
    intro k refs
    rw [collectMarks_cons]
    by_cases hx : markP e x
    · simp only [hx, if_pos, List.cons_append, List.nil_append, List.map_cons, List.map_map]
      have hzerok : (0 : Nat) + k = k := by omega
      have hcomp : ((· + k) ∘ (· + 1) : Nat → Nat) = (· + (k + 1)) := by
        funext z; simp; omega
      rw [hzerok, hcomp]
      simp only [deleteLoop, Nat.sub_self]
      have hhead : (x :: rest)[0]? = some x := by simp
      rw [hhead]
      have := ih (k + 1) (match x.2 with
        | some p => removeRef refs p.addr
        | Option.none => refs)
      simp only [List.eraseIdx_cons_zero]
      rw [List.filter_cons]
      simp only [hx, Bool.not_true, Bool.false_eq_true, reduceIte]
      exact this
    · simp only [hx, Bool.false_eq_true, reduceIte, List.nil_append, List.map_map]
      have hcomp : ((· + k) ∘ (· + 1) : Nat → Nat) = (· + (k + 1)) := by
        funext z; simp; omega
      rw [hcomp]
      have hlb : ∀ y ∈ (collectMarks e rest).map (· + (k + 1)), k < y := by
        intro y hy
        obtain ⟨c, _, hc⟩ := List.mem_map.mp hy
        omega
      have hpw : List.Pairwise (· < ·) ((collectMarks e rest).map (· + (k + 1))) :=
        List.Pairwise.map _ (fun a b hab => by omega) (collectMarks_go_pairwise e rest 0)
      rw [deleteLoop_cons x _ k rest refs hlb hpw]
      have hsub : ((collectMarks e rest).map (· + (k + 1))).map (· - 1) =
          (collectMarks e rest).map (· + k) := by
        rw [List.map_map]
        apply List.map_congr_left
        intro a _
        simp only [Function.comp_apply]
        omega
      rw [hsub, List.filter_cons]
      simp only [hx, Bool.not_false, if_pos]
      rw [ih k refs]

theorem cleanPass_eq_map (l : List Slot) :
    MultiBlock.clean.cleanPass l = l.map cleanSlotFn := by
  induction l with
  | nil => rfl
  | cons x rest ih =>
    match x with
    | (nm, Option.none) => simp [MultiBlock.clean.cleanPass, cleanSlotFn, ih]
    | (nm, some (.inl d)) => simp [MultiBlock.clean.cleanPass, cleanSlotFn, ih]
    | (nm, some (.inr sub)) => simp [MultiBlock.clean.cleanPass, cleanSlotFn, ih]

theorem cleanPass_id {l : List Slot}
    (h : ∀ (nm : Option String) (sub : MultiBlock),
      (nm, some (.inr sub)) ∈ l → MultiBlock.clean true sub = sub) :
    MultiBlock.clean.cleanPass l = l := by
  induction l with
  | nil => rfl
  | cons x rest ih =>
    have hrest := ih (fun nm sub hm => h nm sub (List.mem_cons_of_mem x hm))
    match x with
    | (nm, Option.none) => simp [MultiBlock.clean.cleanPass, hrest]
    | (nm, some (.inl d)) => simp [MultiBlock.clean.cleanPass, hrest]
    | (nm, some (.inr sub)) =>
      have hx := h nm sub (List.mem_cons_self _ _)
      simp [MultiBlock.clean.cleanPass, hrest, hx]

theorem clean_eq_filter (e : Bool) (a : Nat) (slots : List Slot) (refs : List Nat) :
    MultiBlock.clean e (.mk a slots refs) =
      .mk a ((MultiBlock.clean.cleanPass slots).filter fun s => !markP e s)
        (deleteLoop 0 (collectMarks e (MultiBlock.clean.cleanPass slots))
          (MultiBlock.clean.cleanPass slots) refs).2 := by
  rw [MultiBlock.clean]
  have hid : (collectMarks e (MultiBlock.clean.cleanPass slots)).map (· + 0) =
      collectMarks e (MultiBlock.clean.cleanPass slots) := by simp
  have hmk := deleteLoop_marks e (MultiBlock.clean.cleanPass slots) 0 refs
  rw [hid] at hmk
  rw [hmk]

theorem clean_idempotent_size :
    ∀ (n : Nat) (m : MultiBlock), m.size ≤ n →
      (m.clean true).clean true = m.clean true := by
  intro n
  induction n with
  | zero => intro m hm; have := size_pos m; omega
  | succ n ih =>
    intro m hm
    match m with
    | .mk a slots refs =>
      rw [clean_eq_filter]
      set S2 : List Slot :=
        (MultiBlock.clean.cleanPass slots).filter (fun s => !markP true s) with hS2
      set R2 : List Nat :=
        (deleteLoop 0 (collectMarks true (MultiBlock.clean.cleanPass slots))
          (MultiBlock.clean.cleanPass slots) refs).2 with hR2
      have hfix : MultiBlock.clean.cleanPass S2 = S2 := by
        apply cleanPass_id
        intro nm sub hmem
        have hmem1 : (nm, some (.inr sub)) ∈ MultiBlock.clean.cleanPass slots :=
          List.mem_of_mem_filter hmem
        rw [cleanPass_eq_map] at hmem1
        obtain ⟨x, hxmem, hxeq⟩ := List.mem_map.mp hmem1
        match x with
        | (nm0, Option.none) => simp [cleanSlotFn] at hxeq
        | (nm0, some (.inl d)) => simp [cleanSlotFn] at hxeq
        | (nm0, some (.inr sub0)) =>
          simp only [cleanSlotFn] at hxeq
          obtain ⟨hnm, hsub⟩ := Prod.mk.injEq .. ▸ hxeq
          have hsub' : MultiBlock.clean true sub0 = sub := by
            have := congrArg Prod.snd hxeq
            simpa using this
          have hsize : sub0.size ≤ n := by
            have h1 := size_lt_of_mem hxmem
            rw [MultiBlock.size] at hm
            omega
          rw [← hsub']
          exact ih sub0 hsize
      have hunmarked : ∀ s ∈ S2, markP true s = false := by
        intro s hs
        have := List.of_mem_filter hs
        simpa using this
      rw [clean_eq_filter, hfix, collectMarks_eq_nil_of_unmarked true hunmarked]
      have hfilter : S2.filter (fun s => !markP true s) = S2 :=
        List.filter_eq_self.mpr (fun s hs => by simp [hunmarked s hs])
      rw [hfilter]
      rfl

/-- Claim **C8**: `clean(empty=True)` — remove null slots, zero-point leaf datasets,
and nested containers that compact to zero blocks, recursing into nested
containers first — is idempotent: running it twice produces exactly the same
container state (slots, names, retention table, nesting included) as running
it once. -/
theorem clean_drop_empty_idempotent (m : MultiBlock) :
    (m.clean true).clean true = m.clean true :=
  clean_idempotent_size m.size m (Nat.le_refl _)

/-! ## C3 — resolution when the field is missing from every block -/

theorem sizeSlots_sub_cons (nm : Option String) (sub : MultiBlock) (rest : List Slot) :
    MultiBlock.size.sizeSlots ((nm, some (.inr sub)) :: rest) =
      sub.size + MultiBlock.size.sizeSlots rest + 1 := by
  rw [MultiBlock.size.sizeSlots]

theorem size_eq_sizeSlots (a : Nat) (slots : List Slot) (r : List Nat) :
    (MultiBlock.mk a slots r).size = MultiBlock.size.sizeSlots slots + 1 := by
  rw [MultiBlock.size]

theorem collectAssoc_missing (s : String) (preference : Pref) :
    ∀ (n : Nat) (am : Bool) (slots : List Slot),
      MultiBlock.size.sizeSlots slots ≤ n →
      MultiBlock.hasArrayAnywhere.go s slots = false →
      MultiBlock.set_active_scalars.collectAssoc (some s) preference am slots =
          .error .notFound ∨
        ∃ l, MultiBlock.set_active_scalars.collectAssoc (some s) preference am slots =
          .ok ([], l) := by
  intro n
  induction n with
  | zero =>
    intro am slots hsz hno
    match slots with
    | [] => exact Or.inr ⟨Option.none, rfl⟩
    | x :: rest =>
      have := sizeSlots_cons_le x rest
      omega
  | succ n ih =>
    intro am slots hsz hno
    match slots with
    | [] => exact Or.inr ⟨Option.none, rfl⟩
    | (nm, Option.none) :: rest =>
      have hrest : MultiBlock.size.sizeSlots rest ≤ n := by
        have := sizeSlots_cons_le (nm, Option.none) rest
        simp only [MultiBlock.size.sizeSlots] at hsz
        omega
      have hno' : MultiBlock.hasArrayAnywhere.go s rest = false := by
        rw [MultiBlock.hasArrayAnywhere.go] at hno
        exact hno
      rw [MultiBlock.set_active_scalars.collectAssoc]
      exact ih am rest hrest hno'
    | (nm, some (.inl d)) :: rest =>
      rw [MultiBlock.hasArrayAnywhere.go, Bool.or_eq_false_iff] at hno
      obtain ⟨hd, hrestno⟩ := hno
      have hrest : MultiBlock.size.sizeSlots rest ≤ n := by
        simp only [MultiBlock.size.sizeSlots] at hsz
        omega
      have hpt : findField d.point_data s = Option.none := by
        rw [Dataset.hasArray, Bool.or_eq_false_iff] at hd
        exact Option.not_isSome_iff_eq_none.mp (by simp [hd.1])
      have hct : findField d.cell_data s = Option.none := by
        rw [Dataset.hasArray, Bool.or_eq_false_iff] at hd
        exact Option.not_isSome_iff_eq_none.mp (by simp [hd.2])
      have hleaf : d.set_active_scalars (some s) preference = .error .notFound := by
        rw [Dataset.set_active_scalars, hpt, hct]
      rw [MultiBlock.set_active_scalars.collectAssoc, hleaf]
      by_cases ham : am
      · subst ham
        simp only [reduceIte, ok_bind]
        rcases ih true rest hrest hrestno with herr | ⟨l, hok⟩
        · rw [herr]; exact Or.inl rfl
        · rw [hok]
          exact Or.inr ⟨some (l.getD emptyArr), by simp⟩
      · have : am = false := by simpa using ham
        subst this
        simp only [Bool.and_false, reduceIte, error_bind]
        exact Or.inl rfl
    | (nm, some (.inr sub)) :: rest =>
      rw [MultiBlock.hasArrayAnywhere.go, Bool.or_eq_false_iff] at hno
      obtain ⟨hsubno, hrestno⟩ := hno
      have hsubsz : MultiBlock.size.sizeSlots sub.slots ≤ n := by
        rw [sizeSlots_sub_cons] at hsz
        match sub with
        | .mk a2 slots2 r2 =>
          rw [size_eq_sizeSlots] at hsz
          simp only [MultiBlock.slots_mk]
          omega
      have hsubfail :
          MultiBlock.set_active_scalars (some s) preference am sub = .error .notFound := by
        match sub with
        | .mk a2 slots2 r2 =>
          have hno2 : MultiBlock.hasArrayAnywhere.go s slots2 = false := by
            rw [MultiBlock.hasArrayAnywhere] at hsubno
            exact hsubno
          rcases ih am slots2 (by simpa using hsubsz) hno2 with herr | ⟨l, hok⟩
          · rw [MultiBlock.set_active_scalars, herr]
            rfl
          · rw [MultiBlock.set_active_scalars, hok]
            simp
      rw [MultiBlock.set_active_scalars.collectAssoc, hsubfail]
      exact Or.inl (by simp)

/-- Claim **C3 (amended)**: when no block — transitively through nested containers —
carries an array of the requested name, `set_active_scalars` fails with the
NotFound error (`KeyError`) for **both** values of `allow_missing`: with
`allow_missing=False` the first leaf lacking the array re-raises, and with
`allow_missing=True` every block is skipped, `data_assoc` stays empty, and the
final guard raises `KeyError("... is missing from all the blocks ...")` — as
the method's own docstring states ("If all blocks are missing the array, it
will raise a KeyError"). -/
theorem set_active_scalars_missing_everywhere (m : MultiBlock) (s : String)
    (preference : Pref) (am : Bool) (h : m.hasArrayAnywhere s = false) :
    MultiBlock.set_active_scalars (some s) preference am m = .error .notFound := by
  match m with
  | .mk a slots r =>
    have hno : MultiBlock.hasArrayAnywhere.go s slots = false := by
      rw [MultiBlock.hasArrayAnywhere] at h
      exact h
    rcases collectAssoc_missing s preference (MultiBlock.size.sizeSlots slots) am slots
        (Nat.le_refl _) hno with herr | ⟨l, hok⟩
    · rw [MultiBlock.set_active_scalars, herr]
      rfl
    · rw [MultiBlock.set_active_scalars, hok]
      simp

theorem set_active_scalars_missing_everywhere_witness :
    oneNamedX.hasArrayAnywhere "Q" = false ∧
    MultiBlock.set_active_scalars (some "Q") .cell true oneNamedX = .error .notFound ∧
    MultiBlock.set_active_scalars (some "Q") .cell false oneNamedX = .error .notFound :=
  ⟨rfl, set_active_scalars_missing_everywhere oneNamedX "Q" .cell true rfl,
    set_active_scalars_missing_everywhere oneNamedX "Q" .cell false rfl⟩

/-- Claim **C3 (counterexample)**: a container whose single leaf has no arrays: with
`allow_missing=True` the claim says resolution does not fail and returns the
none association, but the code raises the NotFound error (`KeyError`). -/
theorem set_active_scalars_allow_missing_still_fails :
    oneNamedX.hasArrayAnywhere "Q" = false ∧
    MultiBlock.set_active_scalars (some "Q") .cell true oneNamedX = .error .notFound ∧
    ∀ arr, MultiBlock.set_active_scalars (some "Q") .cell true oneNamedX ≠
      .ok (Assoc.none, arr) := by
  refine ⟨rfl, rfl, ?_⟩
  intro arr hcontra
  exact Except.noConfusion hcontra

/-! ## C4 — the winning association -/

theorem ite_error_ok {c : Prop} [Decidable c] {b : Type} {x : Except Err b} {v : b}
    (h : (if c then Except.error Err.inconsistentField else x) = .ok v) : x = .ok v := by
  split at h
  · exact absurd h (by simp)
  · exact h

theorem sas_ok_inv (s : String) (preference : Pref) (am : Bool) (a : Nat)
    (slots : List Slot) (r : List Nat) (a' : Assoc) (arr' : ArrInfo)
    (h : MultiBlock.set_active_scalars (some s) preference am (.mk a slots r) =
      .ok (a', arr')) :
    ∃ da l,
      MultiBlock.set_active_scalars.collectAssoc (some s) preference am slots =
        .ok (da, l) ∧
      da ≠ [] ∧
      (preference.toAssoc ∈ da.map (·.1) → a' = preference.toAssoc) ∧
      (preference.toAssoc ∉ da.map (·.1) → some a' = da.head?.map (·.1)) := by
  rw [MultiBlock.set_active_scalars] at h
  cases hca : MultiBlock.set_active_scalars.collectAssoc (some s) preference am slots with
  | error e => rw [hca] at h; exact absurd h (by simp)
  | ok pair =>
    obtain ⟨da, l⟩ := pair
    rw [hca] at h
    simp only [ok_bind] at h
    cases da with
    | nil =>
      rw [if_neg (by simp), if_pos (by simp)] at h
      exact absurd h (by simp)
    | cons e es =>
      rw [if_neg (by simp), if_neg (by simp)] at h
      have hany : ((e :: es).any fun x => x.1 = preference.toAssoc) = true ↔
          preference.toAssoc ∈ (e :: es).map (·.1) := by
        simp only [List.any_eq_true, List.mem_map, decide_eq_true_eq]
      have h2 := ite_error_ok (ite_error_ok h)
      have hfield : (if (e.1 ≠ preference.toAssoc ∧
            ((e :: es).any fun x => x.1 = preference.toAssoc) = true) then
          preference.toAssoc else e.1) = a' :=
        congrArg Prod.fst (Except.ok.inj h2)
      refine ⟨e :: es, l, rfl, by simp, ?_, ?_⟩
      · intro hmem
        rw [← hfield]
        by_cases hh : e.1 = preference.toAssoc
        · rw [if_neg (fun hc => hc.1 hh)]
          exact hh
        · rw [if_pos ⟨hh, hany.mpr hmem⟩]
      · intro hnmem
        rw [← hfield]
        rw [if_neg (fun hc => hnmem (hany.mp hc.2))]
        rfl

theorem firstGo_ne_pref (s : String) (preference : Pref) :
    ∀ (n : Nat) (slots : List Slot), MultiBlock.size.sizeSlots slots ≤ n →
      MultiBlock.offersUnderPref.go s preference slots = false →
      ∀ x, MultiBlock.firstLeafAssoc.go s preference slots = some x →
        x ≠ preference.toAssoc := by
  intro n
  induction n with
  | zero =>
    intro slots hsz hoff x hx
    match slots with
    | [] => simp [MultiBlock.firstLeafAssoc.go] at hx
    | y :: rest =>
      have := sizeSlots_cons_le y rest
      omega
  | succ n ih =>
    intro slots hsz hoff x hx
    match slots with
    | [] => simp [MultiBlock.firstLeafAssoc.go] at hx
    | (nm, Option.none) :: rest =>
      rw [MultiBlock.firstLeafAssoc.go] at hx
      rw [MultiBlock.offersUnderPref.go] at hoff
      have hrest : MultiBlock.size.sizeSlots rest ≤ n := by
        have := sizeSlots_cons_le (nm, Option.none) rest
        simp only [MultiBlock.size.sizeSlots] at hsz
        omega
      exact ih rest hrest hoff x hx
    | (nm, some (.inl d)) :: rest =>
      rw [MultiBlock.firstLeafAssoc.go] at hx
      rw [MultiBlock.offersUnderPref.go, Bool.or_eq_false_iff] at hoff
      obtain ⟨hdpref, hrestoff⟩ := hoff
      have hrest : MultiBlock.size.sizeSlots rest ≤ n := by
        simp only [MultiBlock.size.sizeSlots] at hsz
        omega
      cases hres : d.resolvedAssoc s preference with
      | none => rw [hres] at hx; simp only [Option.none_orElse] at hx
                exact ih rest hrest hrestoff x hx
      | some y =>
        rw [hres] at hx
        simp only [Option.some_orElse, Option.some.injEq] at hx
        subst hx
        rw [Dataset.resolvedAssoc] at hres
        cases preference with
        | point =>
          rw [Dataset.hasPrefArray] at hdpref
          have hptnone : findField d.point_data s = Option.none :=
            Option.not_isSome_iff_eq_none.mp (by simp [hdpref])
          rw [hptnone] at hres
          cases hct : findField d.cell_data s with
          | none => rw [hct] at hres; exact absurd hres (by simp)
          | some c => rw [hct] at hres
                      simp only [Option.some.injEq] at hres
                      subst hres
                      simp [Pref.toAssoc]
        | cell =>
          rw [Dataset.hasPrefArray] at hdpref
          have hctnone : findField d.cell_data s = Option.none :=
            Option.not_isSome_iff_eq_none.mp (by simp [hdpref])
          rw [hctnone] at hres
          cases hpt : findField d.point_data s with
          | none => rw [hpt] at hres; exact absurd hres (by simp)
          | some p => rw [hpt] at hres
                      simp only [Option.some.injEq] at hres
                      subst hres
                      simp [Pref.toAssoc]
    | (nm, some (.inr sub)) :: rest =>
      rw [MultiBlock.firstLeafAssoc.go] at hx
      rw [MultiBlock.offersUnderPref.go, Bool.or_eq_false_iff] at hoff
      obtain ⟨hsuboff, hrestoff⟩ := hoff
      have hrest : MultiBlock.size.sizeSlots rest ≤ n := by
        rw [sizeSlots_sub_cons] at hsz
        omega
      cases hfs : MultiBlock.firstLeafAssoc s preference sub with
      | none => rw [hfs] at hx; simp only [Option.none_orElse] at hx
                exact ih rest hrest hrestoff x hx
      | some y =>
        rw [hfs] at hx
        simp only [Option.some_orElse, Option.some.injEq] at hx
        subst hx
        match sub with
        | .mk a2 slots2 r2 =>
          have hsz2 : MultiBlock.size.sizeSlots slots2 ≤ n := by
            rw [sizeSlots_sub_cons, size_eq_sizeSlots] at hsz
            omega
          have hoff2 : MultiBlock.offersUnderPref.go s preference slots2 = false := by
            rw [MultiBlock.offersUnderPref] at hsuboff
            exact hsuboff
          have hfs2 : MultiBlock.firstLeafAssoc.go s preference slots2 = some y := by
            rw [MultiBlock.firstLeafAssoc] at hfs
            exact hfs
          exact ih slots2 hsz2 hoff2 y hfs2

theorem leaf_activation_facts (d : Dataset) (s : String) (preference : Pref)
    (hsome : d.hasArray s = true) :
    ∃ (A : Assoc) (arr : ArrInfo),
      d.set_active_scalars (some s) preference = .ok (A, some arr) ∧
      A ≠ Assoc.none ∧
      d.resolvedAssoc s preference = some A ∧
      (d.hasPrefArray s preference = true → A = preference.toAssoc) ∧
      (d.hasPrefArray s preference = false → A ≠ preference.toAssoc) := by
  cases hpt : findField d.point_data s with
  | some p =>
    cases hct : findField d.cell_data s with
    | some c =>
      cases preference with
      | point =>
        refine ⟨Assoc.point, p, ?_, by simp, ?_, fun _ => rfl, ?_⟩
        · rw [Dataset.set_active_scalars, hpt, hct]; simp
        · rw [Dataset.resolvedAssoc, hpt, hct]; rfl
        · intro hfalse
          rw [Dataset.hasPrefArray, hpt] at hfalse
          simp at hfalse
      | cell =>
        refine ⟨Assoc.cell, c, ?_, by simp, ?_, fun _ => rfl, ?_⟩
        · rw [Dataset.set_active_scalars, hpt, hct]; simp
        · rw [Dataset.resolvedAssoc, hpt, hct]; rfl
        · intro hfalse
          rw [Dataset.hasPrefArray, hct] at hfalse
          simp at hfalse
    | none =>
      cases preference with
      | point =>
        refine ⟨Assoc.point, p, ?_, by simp, ?_, fun _ => rfl, ?_⟩
        · rw [Dataset.set_active_scalars, hpt, hct]
        · rw [Dataset.resolvedAssoc, hpt, hct]
        · intro hfalse
          rw [Dataset.hasPrefArray, hpt] at hfalse
          simp at hfalse
      | cell =>
        refine ⟨Assoc.point, p, ?_, by simp, ?_, ?_, fun _ => by simp [Pref.toAssoc]⟩
        · rw [Dataset.set_active_scalars, hpt, hct]
        · rw [Dataset.resolvedAssoc, hpt, hct]
        · intro htrue
          rw [Dataset.hasPrefArray, hct] at htrue
          simp at htrue
  | none =>
    cases hct : findField d.cell_data s with
    | some c =>
      cases preference with
      | point =>
        refine ⟨Assoc.cell, c, ?_, by simp, ?_, ?_, fun _ => by simp [Pref.toAssoc]⟩
        · rw [Dataset.set_active_scalars, hpt, hct]
        · rw [Dataset.resolvedAssoc, hpt, hct]
        · intro htrue
          rw [Dataset.hasPrefArray, hpt] at htrue
          simp at htrue
      | cell =>
        refine ⟨Assoc.cell, c, ?_, by simp, ?_, fun _ => rfl, ?_⟩
        · rw [Dataset.set_active_scalars, hpt, hct]
        · rw [Dataset.resolvedAssoc, hpt, hct]
        · intro hfalse
          rw [Dataset.hasPrefArray, hct] at hfalse
          simp at hfalse
    | none =>
      rw [Dataset.hasArray, hpt, hct] at hsome
      simp at hsome

theorem collect_inv (s : String) (preference : Pref) :
    ∀ (n : Nat) (am : Bool) (slots : List Slot),
      MultiBlock.size.sizeSlots slots ≤ n →
      ∀ (da : List (Assoc × ArrInfo)) (l : Option ArrInfo),
        MultiBlock.set_active_scalars.collectAssoc (some s) preference am slots =
          .ok (da, l) →
        ((MultiBlock.offersUnderPref.go s preference slots = true →
            preference.toAssoc ∈ da.map (·.1)) ∧
         (MultiBlock.offersUnderPref.go s preference slots = false →
            preference.toAssoc ∉ da.map (·.1)) ∧
         (MultiBlock.offersUnderPref.go s preference slots = false →
            da.head?.map (·.1) = MultiBlock.firstLeafAssoc.go s preference slots) ∧
         (∀ e ∈ da, e.1 ≠ Assoc.none)) := by
  intro n
  induction n with
  | zero =>
    intro am slots hsz da l hca
    match slots with
    | [] =>
      have h' : (Except.ok (([] : List (Assoc × ArrInfo)), (Option.none : Option ArrInfo)) :
          Except Err (List (Assoc × ArrInfo) × Option ArrInfo)) = .ok (da, l) := hca
      have hp := Except.ok.inj h'
      injection hp with h1 h2
      subst h1
      refine ⟨by simp [MultiBlock.offersUnderPref.go], by simp, ?_, by simp⟩
      intro _
      simp [MultiBlock.firstLeafAssoc.go]
    | x :: rest =>
      have := sizeSlots_cons_le x rest
      omega
  | succ n ih =>
    intro am slots hsz da l hca
    match slots with
    | [] =>
      have h' : (Except.ok (([] : List (Assoc × ArrInfo)), (Option.none : Option ArrInfo)) :
          Except Err (List (Assoc × ArrInfo) × Option ArrInfo)) = .ok (da, l) := hca
      have hp := Except.ok.inj h'
      injection hp with h1 h2
      subst h1
      refine ⟨by simp [MultiBlock.offersUnderPref.go], by simp, ?_, by simp⟩
      intro _
      simp [MultiBlock.firstLeafAssoc.go]
    | (nm, Option.none) :: rest =>
      rw [MultiBlock.set_active_scalars.collectAssoc] at hca
      have hrestsz : MultiBlock.size.sizeSlots rest ≤ n := by
        have := sizeSlots_cons_le (nm, Option.none) rest
        simp only [MultiBlock.size.sizeSlots] at hsz
        omega
      rw [MultiBlock.offersUnderPref.go, MultiBlock.firstLeafAssoc.go]
      exact ih am rest hrestsz da l hca
    | (nm, some (.inl d)) :: rest =>
      have hrestsz : MultiBlock.size.sizeSlots rest ≤ n := by
        simp only [MultiBlock.size.sizeSlots] at hsz
        omega
      rw [MultiBlock.set_active_scalars.collectAssoc] at hca
      by_cases hhas : d.hasArray s = true
      · obtain ⟨A, arr, hact, hAne, hres, hprefT, hprefF⟩ :=
          leaf_activation_facts d s preference hhas
        rw [hact] at hca
        cases hrest : MultiBlock.set_active_scalars.collectAssoc (some s) preference am rest with
        | error e2 =>
          rw [hrest] at hca
          have h' : (Except.error e2 :
              Except Err (List (Assoc × ArrInfo) × Option ArrInfo)) = .ok (da, l) := hca
          exact absurd h' (by simp)
        | ok pr =>
          obtain ⟨ra, rl⟩ := pr
          rw [hrest] at hca
          have h' : (Except.ok ((if A ≠ Assoc.none then (A, arr) :: ra else ra),
              some (rl.getD arr)) :
              Except Err (List (Assoc × ArrInfo) × Option ArrInfo)) = .ok (da, l) := hca
          rw [if_pos hAne] at h'
          have hp := Except.ok.inj h'
          injection hp with h1 h2
          subst h1
          obtain ⟨ih1, ih2, ih3, ih4⟩ := ih am rest hrestsz ra rl hrest
          rw [MultiBlock.offersUnderPref.go, MultiBlock.firstLeafAssoc.go]
          refine ⟨?_, ?_, ?_, ?_⟩
          · intro hofft
            rcases Bool.or_eq_true_iff.mp hofft with hp1 | hp2
            · rw [List.map_cons, hprefT hp1]
              exact List.mem_cons_self _ _
            · rw [List.map_cons]
              exact List.mem_cons_of_mem _ (ih1 hp2)
          · intro hofff
            obtain ⟨hp1, hp2⟩ := Bool.or_eq_false_iff.mp hofff
            rw [List.map_cons]
            intro hmem
            rcases List.mem_cons.mp hmem with hx | hx
            · exact hprefF hp1 hx.symm
            · exact ih2 hp2 hx
          · intro hofff
            obtain ⟨hp1, hp2⟩ := Bool.or_eq_false_iff.mp hofff
            simp only [List.head?_cons, Option.map_some, hres, Option.some_orElse]
            rfl
          · intro e he
            rcases List.mem_cons.mp he with hx | hx
            · rw [hx]; exact hAne
            · exact ih4 e hx
      · have hhasf : d.hasArray s = false := by simpa using hhas
        rw [Dataset.hasArray, Bool.or_eq_false_iff] at hhasf
        have hpt : findField d.point_data s = Option.none :=
          Option.not_isSome_iff_eq_none.mp (by simp [hhasf.1])
        have hct : findField d.cell_data s = Option.none :=
          Option.not_isSome_iff_eq_none.mp (by simp [hhasf.2])
        have hact : d.set_active_scalars (some s) preference = .error .notFound := by
          rw [Dataset.set_active_scalars, hpt, hct]
        have hprefF : d.hasPrefArray s preference = false := by
          cases preference with
          | point => rw [Dataset.hasPrefArray, hpt]; rfl
          | cell => rw [Dataset.hasPrefArray, hct]; rfl
        have hresn : d.resolvedAssoc s preference = Option.none := by
          rw [Dataset.resolvedAssoc, hpt, hct]
        rw [hact] at hca
        cases am with
        | false =>
          have h' : (Except.error Err.notFound :
              Except Err (List (Assoc × ArrInfo) × Option ArrInfo)) = .ok (da, l) := hca
          exact absurd h' (by simp)
        | true =>
          cases hrest : MultiBlock.set_active_scalars.collectAssoc
              (some s) preference true rest with
          | error e2 =>
            rw [hrest] at hca
            have h' : (Except.error e2 :
                Except Err (List (Assoc × ArrInfo) × Option ArrInfo)) = .ok (da, l) := hca
            exact absurd h' (by simp)
          | ok pr =>
            obtain ⟨ra, rl⟩ := pr
            rw [hrest] at hca
            have h' : (Except.ok ((if (Assoc.none : Assoc) ≠ Assoc.none
                then (Assoc.none, emptyArr) :: ra else ra), some (rl.getD emptyArr)) :
                Except Err (List (Assoc × ArrInfo) × Option ArrInfo)) = .ok (da, l) := hca
            rw [if_neg (by simp)] at h'
            have hp := Except.ok.inj h'
            injection hp with h1 h2
            subst h1
            obtain ⟨ih1, ih2, ih3, ih4⟩ := ih true rest hrestsz ra rl hrest
            rw [MultiBlock.offersUnderPref.go, MultiBlock.firstLeafAssoc.go, hprefF, hresn]
            simp only [Bool.false_or, Option.none_orElse]
            exact ⟨ih1, ih2, ih3, ih4⟩
    | (nm, some (.inr sub)) :: rest =>
      have hrestsz : MultiBlock.size.sizeSlots rest ≤ n := by
        rw [sizeSlots_sub_cons] at hsz
        omega
      rw [MultiBlock.set_active_scalars.collectAssoc] at hca
      cases hsub : MultiBlock.set_active_scalars (some s) preference am sub with
      | error e2 =>
        rw [hsub] at hca
        have h' : (Except.error e2 :
            Except Err (List (Assoc × ArrInfo) × Option ArrInfo)) = .ok (da, l) := hca
        exact absurd h' (by simp)
      | ok pr =>
        obtain ⟨a', arr'⟩ := pr
        rw [hsub] at hca
        cases hrest : MultiBlock.set_active_scalars.collectAssoc (some s) preference am rest with
        | error e2 =>
          rw [hrest] at hca
          have h' : (Except.error e2 :
              Except Err (List (Assoc × ArrInfo) × Option ArrInfo)) = .ok (da, l) := hca
          exact absurd h' (by simp)
        | ok pr2 =>
          obtain ⟨ra, rl⟩ := pr2
          rw [hrest] at hca
          match sub, hsub with
          | .mk a2 slots2 r2, hsub =>
            have hsz2 : MultiBlock.size.sizeSlots slots2 ≤ n := by
              rw [sizeSlots_sub_cons, size_eq_sizeSlots] at hsz
              omega
            obtain ⟨da2, l2, hca2, hda2ne, hmem2, hnmem2⟩ :=
              sas_ok_inv s preference am a2 slots2 r2 a' arr' hsub
            obtain ⟨jh1, jh2, jh3, jh4⟩ := ih am slots2 hsz2 da2 l2 hca2
            have hAne : a' ≠ Assoc.none := by
              by_cases hpm : preference.toAssoc ∈ da2.map (·.1)
              · rw [hmem2 hpm]
                cases preference <;> simp [Pref.toAssoc]
              · obtain ⟨e2, es2, hees⟩ := List.exists_cons_of_ne_nil hda2ne
                subst hees
                have hh := hnmem2 hpm
                have hh2 : a' = e2.1 := by simpa using hh
                rw [hh2]
                exact jh4 e2 (List.mem_cons_self _ _)
            have hofft : MultiBlock.offersUnderPref.go s preference slots2 = true →
                a' = preference.toAssoc := fun hofr => hmem2 (jh1 hofr)
            have hofff : MultiBlock.offersUnderPref.go s preference slots2 = false →
                (some a' = MultiBlock.firstLeafAssoc.go s preference slots2 ∧
                 a' ≠ preference.toAssoc) := by
              intro hofr
              have hsome : some a' = MultiBlock.firstLeafAssoc.go s preference slots2 :=
                (hnmem2 (jh2 hofr)).trans (jh3 hofr)
              refine ⟨hsome, ?_⟩
              exact firstGo_ne_pref s preference n slots2 hsz2 hofr a' hsome.symm
            have h' : (Except.ok ((if a' ≠ Assoc.none then (a', arr') :: ra else ra),
                some (rl.getD arr')) :
                Except Err (List (Assoc × ArrInfo) × Option ArrInfo)) = .ok (da, l) := hca
            rw [if_pos hAne] at h'
            have hp := Except.ok.inj h'
            injection hp with h1 h2
            subst h1
            obtain ⟨ih1, ih2, ih3, ih4⟩ := ih am rest hrestsz ra rl hrest
            rw [MultiBlock.offersUnderPref.go, MultiBlock.firstLeafAssoc.go]
            have hsubeq : MultiBlock.offersUnderPref s preference (.mk a2 slots2 r2) =
                MultiBlock.offersUnderPref.go s preference slots2 := rfl
            have hfirsteq : MultiBlock.firstLeafAssoc s preference (.mk a2 slots2 r2) =
                MultiBlock.firstLeafAssoc.go s preference slots2 := rfl
            rw [hsubeq, hfirsteq]
            refine ⟨?_, ?_, ?_, ?_⟩
            · intro hofftot
              rcases Bool.or_eq_true_iff.mp hofftot with hp1 | hp2
              · rw [List.map_cons]
                rw [hofft hp1]
                exact List.mem_cons_self _ _
              · rw [List.map_cons]
                exact List.mem_cons_of_mem _ (ih1 hp2)
            · intro hofftot
              obtain ⟨hp1, hp2⟩ := Bool.or_eq_false_iff.mp hofftot
              rw [List.map_cons]
              intro hmem
              rcases List.mem_cons.mp hmem with hx | hx
              · exact (hofff hp1).2 hx.symm
              · exact ih2 hp2 hx
            · intro hofftot
              obtain ⟨hp1, hp2⟩ := Bool.or_eq_false_iff.mp hofftot
              simp only [List.head?_cons, Option.map_some]
              rw [← (hofff hp1).1]
              rfl
            · intro e he
              rcases List.mem_cons.mp he with hx | hx
              · rw [hx]; exact hAne
              · exact ih4 e hx

/-- Claim **C4**: when active-field resolution succeeds, the returned association
equals the caller's preference whenever at least one contributing block —
transitively through nested containers — offers the array under that
association; otherwise it equals the association resolved by the first
contributing block in traversal order (the first leaf, depth-first, that
carries the array). -/
theorem set_active_scalars_preference_rule (m : MultiBlock) (s : String)
    (preference : Pref) (am : Bool) (a : Assoc) (arr : ArrInfo)
    (h : MultiBlock.set_active_scalars (some s) preference am m = .ok (a, arr)) :
    (m.offersUnderPref s preference = true → a = preference.toAssoc) ∧
    (m.offersUnderPref s preference = false →
      some a = m.firstLeafAssoc s preference) := by
  match m, h with
  | .mk adr slots r, h =>
    obtain ⟨da, l, hca, hne, hmem_imp, hnmem_imp⟩ :=
      sas_ok_inv s preference am adr slots r a arr h
    obtain ⟨c1, c2, c3, c4⟩ :=
      collect_inv s preference (MultiBlock.size.sizeSlots slots) am slots
        (Nat.le_refl _) da l hca
    have hoeq : MultiBlock.offersUnderPref s preference (.mk adr slots r) =
        MultiBlock.offersUnderPref.go s preference slots := rfl
    have hfeq : MultiBlock.firstLeafAssoc s preference (.mk adr slots r) =
        MultiBlock.firstLeafAssoc.go s preference slots := rfl
    rw [hoeq, hfeq]
    constructor
    · intro hoff
      exact hmem_imp (c1 hoff)
    · intro hoff
      exact (hnmem_imp (c2 hoff)).trans (c3 hoff)

theorem set_active_scalars_preference_rule_witness :
    MultiBlock.set_active_scalars (some "T") .cell false mixedT =
      .ok (Assoc.cell, ⟨1, false⟩) ∧
    mixedT.offersUnderPref "T" .cell = true ∧
    Assoc.cell = Pref.cell.toAssoc :=
  ⟨rfl, rfl,
    (set_active_scalars_preference_rule mixedT "T" .cell false Assoc.cell ⟨1, false⟩
      rfl).1 rfl⟩
